import Mathlib

/-!
# Fuchsia event handler (runtime/bin/eventhandler_fuchsia.cc)

A shallow embedding of the wait set `MagentaWaitManyInfo` and of the reactor
`EventHandlerImplementation`, followed by the properties proved about them.

Conventions of the embedding

* The two heap blocks of the wait set are lists; every read and write is checked
  against the length of the block and leaves the model through
  `Abort.out_of_bounds` when it falls outside (undefined behaviour in C++).
* A call to `FATAL`, `UNIMPLEMENTED` or a failing `ASSERT` ends the computation
  with `Except.error`; the constructor of `Abort` names the call site.
* Constants that are declared in headers which are not part of the translated
  file are collected in `Config`; the behaviour of `realloc` is given by `Heap`.
* Sizes and indices (`intptr_t`) are natural numbers: a block of `2^62` cells
  cannot be allocated, so their arithmetic never wraps. Time stamps (`int64_t`)
  are integers and the one subtraction on them is reduced with `int64`.
-/

namespace EventHandlerFuchsia

/-! ## Platform types -/

/-- Kernel handle (`mx_handle_t`). -/
abbrev mx_handle_t := Int

/-- Signal bit mask (`mx_signals_t`). -/
abbrev mx_signals_t := Nat

/-- Pointer to a `DescriptorInfo`; the address `0` is `NULL`. -/
abbrev DescriptorInfoPtr := Nat

/-- Port of the Dart isolate that receives a notification. -/
abbrev Dart_Port := Int

/-- The null pointer. -/
def NULL : DescriptorInfoPtr := 0

/-- One cell of the array handed to `mx_handle_wait_many`. -/
structure mx_wait_item_t where
  handle : mx_handle_t
  waitfor : mx_signals_t
  pending : mx_signals_t
deriving DecidableEq, Repr

/-- Status codes of the kernel calls. The program names three of them; every
other code is `ERR_OTHER`. -/
inductive mx_status_t where
  | NO_ERROR
  | ERR_SHOULD_WAIT
  | ERR_TIMED_OUT
  | ERR_OTHER (code : Int)
deriving DecidableEq, Repr

/-- Constants and build flags declared outside the translated file
(`eventhandler.h`, `eventhandler_fuchsia.h`, the Magenta headers). They are
parameters of the embedding. `ids_distinct` records that the two message kinds
are different constants. -/
structure Config where
  DEBUG : Bool
  kInitialCapacity : Nat
  kInfinityTimeout : Int
  kTimerId : Int
  kShutdownId : Int
  MX_HANDLE_INVALID : mx_handle_t
  MX_SIGNAL_READABLE : mx_signals_t
  MX_SIGNAL_PEER_CLOSED : mx_signals_t
  ids_distinct : kTimerId ≠ kShutdownId

/-- Behaviour of the allocator: whether a request for `n` cells succeeds, and
the (arbitrary) content of a cell that was not part of the old block. -/
structure Heap where
  descriptor_infos_ok : Nat → Bool
  items_ok : Nat → Bool
  fresh_info : Nat → DescriptorInfoPtr
  fresh_item : Nat → mx_wait_item_t

/-- Ways in which a computation stops without returning. All but
`out_of_bounds` are calls of `FATAL`, `UNIMPLEMENTED` or `ASSERT`. -/
inductive Abort where
  | alloc_descriptor_infos
  | alloc_items
  | handle_already_in_list
  | handle_not_in_list
  | grow_descriptor_infos
  | grow_items
  | channel_create_failed
  | channel_write_failed
  | channel_read_failed
  | unexpected_peer_closed
  | wait_many_failed
  | unimplemented
  | assertion_failed
  | out_of_bounds
deriving DecidableEq, Repr

/-- The abort is a fatal error raised by the program itself. -/
def Abort.isFatal : Abort → Bool
  | .out_of_bounds => false
  | _ => true

/-! ## Heap blocks -/

/-- Read of cell `i` of a block. -/
def readAt {α : Type} (block : List α) (i : Nat) : Except Abort α :=
  match block[i]? with
  | some v => .ok v
  | none => .error .out_of_bounds

/-- Write of cell `i` of a block. -/
def writeAt {α : Type} (block : List α) (i : Nat) (v : α) : Except Abort (List α) :=
  if i < block.length then .ok (block.set i v) else .error .out_of_bounds

/-- A successful `realloc` to `n` cells: the cells of the old block keep their
content, the others hold whatever `fresh` says. -/
def realloc {α : Type} (block : List α) (n : Nat) (fresh : Nat → α) : List α :=
  (List.range n).map (fun i => block.getD i (fresh i))

/-! ## MagentaWaitManyInfo -/

/-- The wait set: `capacity_`, `size_` and the two parallel heap blocks. -/
structure MagentaWaitManyInfo where
  capacity_ : Nat
  size_ : Nat
  descriptor_infos_ : List DescriptorInfoPtr
  items_ : List mx_wait_item_t
deriving DecidableEq, Repr

namespace MagentaWaitManyInfo

/-- Accessor `size()`. -/
def size (s : MagentaWaitManyInfo) : Nat := s.size_

/-- Accessor `capacity()`. -/
def capacity (s : MagentaWaitManyInfo) : Nat := s.capacity_

/-- Constructor: two blocks of `kInitialCapacity` uninitialised cells, size 0. -/
def new (K : Config) (M : Heap) : Except Abort MagentaWaitManyInfo :=
  if !M.descriptor_infos_ok K.kInitialCapacity then .error .alloc_descriptor_infos
  else if !M.items_ok K.kInitialCapacity then .error .alloc_items
  else .ok
    { capacity_ := K.kInitialCapacity
      size_ := 0
      descriptor_infos_ := realloc [] K.kInitialCapacity M.fresh_info
      items_ := realloc [] K.kInitialCapacity M.fresh_item }

/-- Body of `GrowArraysIfNeeded(desired_size)`. -/
def GrowArraysIfNeeded (M : Heap) (s : MagentaWaitManyInfo) (desired_size : Nat) :
    Except Abort MagentaWaitManyInfo :=
  if desired_size < s.capacity_ then .ok s
  else
    let new_capacity := desired_size + (desired_size >>> 1)
    if !M.descriptor_infos_ok new_capacity then .error .grow_descriptor_infos
    else if !M.items_ok new_capacity then .error .grow_items
    else .ok
      { s with
        descriptor_infos_ := realloc s.descriptor_infos_ new_capacity M.fresh_info
        items_ := realloc s.items_ new_capacity M.fresh_item
        capacity_ := new_capacity }

/-- The debug-only loop of `AddHandle`: `for (i = ...; i < size_; i++)` with
`n = size_ - i` indices still to visit; `FATAL` on the first cell holding `handle`. -/
def checkNotInList (items : List mx_wait_item_t) (handle : mx_handle_t) :
    Nat → Nat → Except Abort Unit
  | 0, _ => .ok ()
  | n + 1, i =>
    match readAt items i with
    | .error e => .error e
    | .ok it =>
      if it.handle = handle then .error .handle_already_in_list
      else checkNotInList items handle n (i + 1)

/-- Body of `AddHandle(handle, signals, di)`. The duplicate check is compiled only
when `DEBUG` is defined. -/
def AddHandle (K : Config) (M : Heap) (s : MagentaWaitManyInfo)
    (handle : mx_handle_t) (signals : mx_signals_t) (di : DescriptorInfoPtr) :
    Except Abort MagentaWaitManyInfo :=
  match (if K.DEBUG then checkNotInList s.items_ handle s.size_ 0 else .ok ()) with
  | .error e => .error e
  | .ok () =>
    let new_size := s.size_ + 1
    match GrowArraysIfNeeded M s new_size with
    | .error e => .error e
    | .ok g =>
      match writeAt g.descriptor_infos_ s.size_ di with
      | .error e => .error e
      | .ok dis =>
        match writeAt g.items_ s.size_ ⟨handle, signals, 0⟩ with
        | .error e => .error e
        | .ok its =>
          .ok { g with descriptor_infos_ := dis, items_ := its, size_ := new_size }

/-- The scan loop of `RemoveHandle`: `for (; idx < size_; idx++)` with
`n = size_ - idx` indices still to visit; leaves with the first index whose cell
holds `handle`, or with `idx = size_`. -/
def findHandle (items : List mx_wait_item_t) (handle : mx_handle_t) :
    Nat → Nat → Except Abort Nat
  | 0, idx => .ok idx
  | n + 1, idx =>
    match readAt items idx with
    | .error e => .error e
    | .ok it =>
      if handle = it.handle then .ok idx
      else findHandle items handle n (idx + 1)

/-- Body of `RemoveHandle(handle)`. With `size_ = 0` the loop is skipped with
`idx = 1`, the test `idx == size_` fails and the code goes on to index
`size_ - 1 = -1`, outside the blocks. -/
def RemoveHandle (K : Config) (s : MagentaWaitManyInfo) (handle : mx_handle_t) :
    Except Abort MagentaWaitManyInfo :=
  if s.size_ = 0 then .error .out_of_bounds
  else
    match findHandle s.items_ handle (s.size_ - 1) 1 with
    | .error e => .error e
    | .ok idx =>
      if idx = s.size_ then .error .handle_not_in_list
      else
        let last := s.size_ - 1
        let moved : Except Abort (List DescriptorInfoPtr × List mx_wait_item_t) :=
          if idx ≠ last then
            match readAt s.descriptor_infos_ last with
            | .error e => .error e
            | .ok d =>
              match writeAt s.descriptor_infos_ idx d with
              | .error e => .error e
              | .ok dis =>
                match readAt s.items_ last with
                | .error e => .error e
                | .ok it =>
                  match writeAt s.items_ idx it with
                  | .error e => .error e
                  | .ok its => .ok (dis, its)
          else .ok (s.descriptor_infos_, s.items_)
        match moved with
        | .error e => .error e
        | .ok (dis, its) =>
          match writeAt dis last NULL with
          | .error e => .error e
          | .ok dis2 =>
            match writeAt its last ⟨K.MX_HANDLE_INVALID, 0, 0⟩ with
            | .error e => .error e
            | .ok its2 =>
              .ok { s with descriptor_infos_ := dis2, items_ := its2, size_ := last }

/-- The wait set that `RemoveHandle` returns when the scan stopped at `idx`. -/
def removed (K : Config) (s : MagentaWaitManyInfo) (idx : Nat) : MagentaWaitManyInfo :=
  { s with
    descriptor_infos_ :=
      ((s.descriptor_infos_.set idx (s.descriptor_infos_.getD (s.size_ - 1) NULL)).set
        (s.size_ - 1) NULL)
    items_ :=
      ((s.items_.set idx (s.items_.getD (s.size_ - 1) ⟨K.MX_HANDLE_INVALID, 0, 0⟩)).set
        (s.size_ - 1) ⟨K.MX_HANDLE_INVALID, 0, 0⟩)
    size_ := s.size_ - 1 }

/-- The blocks have `capacity_` cells each and the live part fits in them. -/
def WellFormed (s : MagentaWaitManyInfo) : Prop :=
  s.items_.length = s.capacity_ ∧ s.descriptor_infos_.length = s.capacity_ ∧
    s.size_ ≤ s.capacity_

instance (s : MagentaWaitManyInfo) : Decidable s.WellFormed := by
  unfold WellFormed; infer_instance

/-- The live entries: cells `0 .. size_ - 1` of both blocks, paired. -/
def live (s : MagentaWaitManyInfo) : List (mx_wait_item_t × DescriptorInfoPtr) :=
  (s.items_.take s.size_).zip (s.descriptor_infos_.take s.size_)

/-- Slot `i`: the item and the descriptor info stored at index `i`. -/
def slot (s : MagentaWaitManyInfo) (i : Nat) : Option (mx_wait_item_t × DescriptorInfoPtr) :=
  match s.items_[i]?, s.descriptor_infos_[i]? with
  | some it, some d => some (it, d)
  | _, _ => none

/-- The handles of the live entries are pairwise distinct. -/
def Distinct (s : MagentaWaitManyInfo) : Prop :=
  ((s.items_.take s.size_).map mx_wait_item_t.handle).Nodup

instance (s : MagentaWaitManyInfo) : Decidable s.Distinct := by
  unfold Distinct; infer_instance

/-- One call on the wait set. -/
inductive Op where
  | AddHandle (handle : mx_handle_t) (signals : mx_signals_t) (di : DescriptorInfoPtr)
  | RemoveHandle (handle : mx_handle_t)
deriving DecidableEq, Repr

/-- The call is an `AddHandle`. -/
def Op.isAdd : Op → Bool
  | .AddHandle _ _ _ => true
  | .RemoveHandle _ => false

/-- The call is a `RemoveHandle`. -/
def Op.isRemove : Op → Bool
  | .AddHandle _ _ _ => false
  | .RemoveHandle _ => true

/-- Effect of one call. -/
def step (K : Config) (M : Heap) (s : MagentaWaitManyInfo) : Op → Except Abort MagentaWaitManyInfo
  | .AddHandle h sig di => AddHandle K M s h sig di
  | .RemoveHandle h => RemoveHandle K s h

/-- Effect of a sequence of calls, stopping at the first one that does not return. -/
def run (K : Config) (M : Heap) : MagentaWaitManyInfo → List Op → Except Abort MagentaWaitManyInfo
  | s, [] => .ok s
  | s, op :: ops =>
    match step K M s op with
    | .error e => .error e
    | .ok s1 => run K M s1 ops

end MagentaWaitManyInfo

/-! ## Timer queue -/

/-- Modelled from the spec: one entry of the timer queue, a deadline and the
endpoint to notify (the class lives in bin/eventhandler.h, which is not part of
the translated file). -/
structure TimerEntry where
  deadline : Int
  port : Dart_Port
deriving DecidableEq, Repr

/-- Modelled from the spec: the timer queue of bin/eventhandler.h, an ordered
collection of (deadline, endpoint) pairs, nearest deadline first. -/
structure TimeoutQueue where
  entries : List TimerEntry
deriving DecidableEq, Repr

namespace TimeoutQueue

/-- Modelled from the spec: ordered insertion used by `UpdateTimeout`; the new
entry goes in front of the first entry with a later deadline. -/
def insertOrdered (e : TimerEntry) : List TimerEntry → List TimerEntry
  | [] => [e]
  | x :: xs => if e.deadline < x.deadline then e :: x :: xs else x :: insertOrdered e xs

/-- Modelled from the spec: `HasPending`, the queue holds an entry. -/
def HasTimeout (q : TimeoutQueue) : Bool := !q.entries.isEmpty

/-- Modelled from the spec: `NearestDeadline`, the deadline of the first entry. -/
def CurrentTimeout (q : TimeoutQueue) : Int :=
  match q.entries with
  | e :: _ => e.deadline
  | [] => 0

/-- Modelled from the spec: `NearestTarget`, the endpoint of the first entry. -/
def CurrentPort (q : TimeoutQueue) : Dart_Port :=
  match q.entries with
  | e :: _ => e.port
  | [] => 0

/-- Modelled from the spec: `Update(target, deadline)`, insert-or-replace the entry
of `port`. -/
def UpdateTimeout (q : TimeoutQueue) (port : Dart_Port) (timeout : Int) : TimeoutQueue :=
  ⟨insertOrdered ⟨timeout, port⟩ (q.entries.filter (fun e => e.port ≠ port))⟩

/-- Modelled from the spec: `PopNearest`, drop the first entry. -/
def RemoveCurrent (q : TimeoutQueue) : TimeoutQueue := ⟨q.entries.tail⟩

end TimeoutQueue

/-! ## Control channel -/

/-- The fixed-size record written to the control channel. -/
structure InterruptMessage where
  id : Int
  dart_port : Dart_Port
  data : Int
deriving DecidableEq, Repr

/-- The kernel object behind `interrupt_handles_`: the messages written and not
yet read, oldest first. When `broken = some c` a write, and a read that finds no
message, fail with `ERR_OTHER c`. -/
structure Channel where
  queue : List InterruptMessage
  broken : Option Int
deriving DecidableEq, Repr

/-- Status of `mx_channel_read` on a channel without a message. -/
def Channel.idleStatus (ch : Channel) : mx_status_t :=
  match ch.broken with
  | none => .ERR_SHOULD_WAIT
  | some c => .ERR_OTHER c

/-- The call `mx_channel_read`: status, message read and channel afterwards. -/
def mx_channel_read (ch : Channel) : mx_status_t × Option InterruptMessage × Channel :=
  match ch.queue with
  | m :: rest => (.NO_ERROR, some m, { ch with queue := rest })
  | [] => (ch.idleStatus, none, ch)

/-- The call `mx_channel_write`: status and channel afterwards. -/
def mx_channel_write (ch : Channel) (msg : InterruptMessage) : mx_status_t × Channel :=
  match ch.broken with
  | none => (.NO_ERROR, { ch with queue := ch.queue ++ [msg] })
  | some c => (.ERR_OTHER c, ch)

/-! ## EventHandlerImplementation -/

/-- What the handler does to the outside, in the order it happens. -/
inductive Event where
  | wait_many (count : Nat) (millis : Int)
  | read (msg : InterruptMessage)
  | post_null (port : Dart_Port)
  | notify_shutdown_done
deriving DecidableEq, Repr

/-- The part of the outside the handler talks to: the control channel and the
record of the calls made so far. -/
structure World where
  channel : Channel
  trace : List Event
deriving DecidableEq, Repr

/-- The fields of the handler. -/
structure EventHandlerImplementation where
  info_ : MagentaWaitManyInfo
  interrupt_handles_ : mx_handle_t × mx_handle_t
  shutdown_ : Bool
  timeout_queue_ : TimeoutQueue
deriving DecidableEq, Repr

/-- Reduction of an integer to the range of `int64_t`. -/
def int64 (x : Int) : Int :=
  (x + 9223372036854775808) % 18446744073709551616 - 9223372036854775808

/-- The value is representable as `int64_t`. -/
def IsInt64 (x : Int) : Prop := -9223372036854775808 ≤ x ∧ x < 9223372036854775808

instance (x : Int) : Decidable (IsInt64 x) := by
  unfold IsInt64; infer_instance

namespace EventHandlerImplementation

/-- Constructor. `created` is what `mx_channel_create` returns: its status and the
two handles. The member `info_` is built first. -/
def new (K : Config) (M : Heap) (created : mx_status_t × mx_handle_t × mx_handle_t) :
    Except Abort EventHandlerImplementation :=
  match MagentaWaitManyInfo.new K M with
  | .error e => .error e
  | .ok info =>
    if created.1 ≠ .NO_ERROR then .error .channel_create_failed
    else
      match info.AddHandle K M created.2.1
          (K.MX_SIGNAL_READABLE ||| K.MX_SIGNAL_PEER_CLOSED) NULL with
      | .error e => .error e
      | .ok info1 =>
        .ok { info_ := info1, interrupt_handles_ := (created.2.1, created.2.2),
              shutdown_ := false, timeout_queue_ := ⟨[]⟩ }

/-- Body of `WakeupHandler(id, dart_port, data)`. -/
def WakeupHandler (w : World) (id : Int) (dart_port : Dart_Port) (data : Int) :
    Except Abort World :=
  let msg : InterruptMessage := ⟨id, dart_port, data⟩
  match mx_channel_write w.channel msg with
  | (.NO_ERROR, ch) => .ok { w with channel := ch }
  | (_, _) => .error .channel_write_failed

/-- Body of `SendData(id, dart_port, data)`. -/
def SendData (w : World) (id : Int) (dart_port : Dart_Port) (data : Int) : Except Abort World :=
  WakeupHandler w id dart_port data

/-- Body of `Shutdown()`. -/
def Shutdown (K : Config) (w : World) : Except Abort World :=
  SendData w K.kShutdownId 0 0

/-- The `while (true)` loop of `HandleInterruptFd`, by recursion on the messages
in the channel: each turn is one `mx_channel_read`, which returns `NO_ERROR` and
the oldest message while there is one. The loop is left with the status of the
read that found none. -/
def drain (K : Config) (broken : Option Int) :
    List InterruptMessage → EventHandlerImplementation → List Event →
      Except Abort (EventHandlerImplementation × World × mx_status_t)
  | [], h, tr => .ok (h, ⟨⟨[], broken⟩, tr⟩, (mx_channel_read ⟨[], broken⟩).1)
  | msg :: rest, h, tr =>
    if msg.id = K.kTimerId then
      drain K broken rest
        { h with timeout_queue_ := h.timeout_queue_.UpdateTimeout msg.dart_port msg.data }
        (tr ++ [.read msg])
    else if msg.id = K.kShutdownId then
      drain K broken rest { h with shutdown_ := true } (tr ++ [.read msg])
    else .error .unimplemented

/-- Body of `HandleInterruptFd()`. -/
def HandleInterruptFd (K : Config) (h : EventHandlerImplementation) (w : World) :
    Except Abort (EventHandlerImplementation × World) :=
  match drain K w.channel.broken w.channel.queue h w.trace with
  | .error e => .error e
  | .ok (h1, w1, status) =>
    if status ≠ .ERR_SHOULD_WAIT then .error .channel_read_failed
    else .ok (h1, w1)

/-- The `for` loop of `HandleEvents`, with `n = size() - i` indices still to
visit. The two `ASSERT`s are compiled only when `DEBUG` is defined. -/
def scanEvents (K : Config) (h : EventHandlerImplementation) : Nat → Nat → Except Abort Unit
  | 0, _ => .ok ()
  | n + 1, i =>
    match readAt h.info_.items_ i with
    | .error e => .error e
    | .ok wait_item =>
      if wait_item.pending &&& wait_item.waitfor ≠ 0 then
        if K.DEBUG then
          match readAt h.info_.descriptor_infos_ i with
          | .error e => .error e
          | .ok di =>
            if di = NULL then .error .assertion_failed
            else if wait_item.handle = h.interrupt_handles_.1 then .error .assertion_failed
            else .error .unimplemented
        else .error .unimplemented
      else scanEvents K h n (i + 1)

/-- Body of `HandleEvents()`. -/
def HandleEvents (K : Config) (h : EventHandlerImplementation) (w : World) :
    Except Abort (EventHandlerImplementation × World) :=
  match scanEvents K h (h.info_.size - 1) 1 with
  | .error e => .error e
  | .ok () =>
    match readAt h.info_.items_ 0 with
    | .error e => .error e
    | .ok item0 =>
      if item0.pending &&& K.MX_SIGNAL_PEER_CLOSED ≠ 0 then .error .unexpected_peer_closed
      else if item0.pending &&& K.MX_SIGNAL_READABLE ≠ 0 then HandleInterruptFd K h w
      else .ok (h, w)

/-- Body of `GetTimeout()`; `now` is the value of
`TimerUtils::GetCurrentMonotonicMillis()`. -/
def GetTimeout (K : Config) (h : EventHandlerImplementation) (now : Int) : Int :=
  if !h.timeout_queue_.HasTimeout then K.kInfinityTimeout
  else
    let millis := int64 (h.timeout_queue_.CurrentTimeout - now)
    if millis < 0 then 0 else millis

/-- Body of `HandleTimeout()`; `now` is the value of
`TimerUtils::GetCurrentMonotonicMillis()`. -/
def HandleTimeout (h : EventHandlerImplementation) (now : Int) (w : World) :
    EventHandlerImplementation × World :=
  if h.timeout_queue_.HasTimeout then
    let millis := int64 (h.timeout_queue_.CurrentTimeout - now)
    if millis ≤ 0 then
      ({ h with timeout_queue_ := h.timeout_queue_.RemoveCurrent },
       { w with trace := w.trace ++ [.post_null h.timeout_queue_.CurrentPort] })
    else (h, w)
  else (h, w)

/-- What the outside does during one turn of the loop of `Poll`: the two clock
readings, the messages other threads have written to the channel by the time
the wait returns, the status of `mx_handle_wait_many` and the pending mask it
stores in each item. -/
structure Tick where
  now_get : Int
  arrived : List InterruptMessage
  status : mx_status_t
  pending : Nat → mx_signals_t
  now_handle : Int

/-- The call `mx_handle_wait_many(items, count, timeout)`: the kernel stores the
pending mask of each of the first `count` items. -/
def mx_handle_wait_many (items : List mx_wait_item_t) (count : Nat)
    (pending : Nat → mx_signals_t) : List mx_wait_item_t :=
  (List.range items.length).map (fun i =>
    let it := items.getD i ⟨0, 0, 0⟩
    if i < count then { it with pending := pending i } else it)

/-- One turn of the `while` loop of `Poll`. The budget `millis` is recorded with
the wait call; its conversion to nanoseconds only feeds the kernel, whose answer
is given by the tick. -/
def iteration (K : Config) (t : Tick) (h : EventHandlerImplementation) (w : World) :
    Except Abort (EventHandlerImplementation × World) :=
  let millis := GetTimeout K h t.now_get
  if K.DEBUG && !(millis = K.kInfinityTimeout || 0 ≤ millis) then .error .assertion_failed
  else
    let w1 : World :=
      { channel := { w.channel with queue := w.channel.queue ++ t.arrived },
        trace := w.trace ++ [.wait_many h.info_.size millis] }
    let h1 : EventHandlerImplementation :=
      { h with info_ := { h.info_ with
          items_ := mx_handle_wait_many h.info_.items_ h.info_.size t.pending } }
    if t.status ≠ .NO_ERROR ∧ t.status ≠ .ERR_TIMED_OUT then .error .wait_many_failed
    else
      let (h2, w2) := HandleTimeout h1 t.now_handle w1
      HandleEvents K h2 w2

/-- How a run of `Poll` against a finite script of ticks ends. -/
inductive PollResult where
  | returned (h : EventHandlerImplementation) (w : World)
  | aborted (e : Abort)
  | waiting (h : EventHandlerImplementation) (w : World)
deriving DecidableEq, Repr

/-- The `while (!shutdown_)` loop of `Poll`, one tick per turn. With the script
used up and the flag still clear the thread is left in the wait call. -/
def pollLoop (K : Config) : List Tick → EventHandlerImplementation → World → PollResult
  | [], h, w => if h.shutdown_ then .returned h w else .waiting h w
  | t :: ts, h, w =>
    if h.shutdown_ then .returned h w
    else
      match iteration K t h w with
      | .error e => .aborted e
      | .ok (h1, w1) => pollLoop K ts h1 w1

/-- Body of `Poll`: the loop, then `handler->NotifyShutdownDone()`. -/
def Poll (K : Config) (ticks : List Tick) (h : EventHandlerImplementation) (w : World) :
    PollResult :=
  match pollLoop K ticks h w with
  | .returned h1 w1 => .returned h1 { w1 with trace := w1.trace ++ [.notify_shutdown_done] }
  | r => r

end EventHandlerImplementation

/-- The timer queue after `UpdateTimeout(dart_port, data)` has been applied for
each message of kind `kTimerId`, in the order of the list. -/
def applyTimerUpdates (K : Config) (q : TimeoutQueue) (msgs : List InterruptMessage) :
    TimeoutQueue :=
  (msgs.filter (fun m => m.id = K.kTimerId)).foldl
    (fun acc m => acc.UpdateTimeout m.dart_port m.data) q

/-- The list holds a message of kind `kShutdownId`. -/
def hasShutdown (K : Config) (msgs : List InterruptMessage) : Bool :=
  msgs.any (fun m => m.id = K.kShutdownId)

/-- The `while (true)` loop of `HandleInterruptFd` once more, turn for turn as in
`drain`, keeping what a fatal error discards: the handler and the record of calls
at the moment the loop is left, and the message that reached `UNIMPLEMENTED()`
(`none` when the loop is left because the channel has no message). The message
that reaches `UNIMPLEMENTED()` has been read from the channel like the others. -/
def drainUntil (K : Config) :
    List InterruptMessage → EventHandlerImplementation → List Event →
      EventHandlerImplementation × List Event × Option InterruptMessage
  | [], h, tr => (h, tr, none)
  | msg :: rest, h, tr =>
    if msg.id = K.kTimerId then
      drainUntil K rest
        { h with timeout_queue_ := h.timeout_queue_.UpdateTimeout msg.dart_port msg.data }
        (tr ++ [.read msg])
    else if msg.id = K.kShutdownId then
      drainUntil K rest { h with shutdown_ := true } (tr ++ [.read msg])
    else (h, tr ++ [.read msg], some msg)

/-- A handler with an empty wait set and the given timer queue. -/
def handlerWith (entries : List TimerEntry) : EventHandlerImplementation :=
  { info_ := ⟨0, 0, [], []⟩, interrupt_handles_ := (3, 4), shutdown_ := false,
    timeout_queue_ := ⟨entries⟩ }

/-- The handler as the constructor leaves it for `cfg true`, `heap0` and the
channel handles 3 and 4. -/
def reactor0 : EventHandlerImplementation :=
  { info_ := ⟨4, 1, [0, 0, 0, 0], [⟨3, 5, 0⟩, ⟨0, 0, 0⟩, ⟨0, 0, 0⟩, ⟨0, 0, 0⟩]⟩,
    interrupt_handles_ := (3, 4), shutdown_ := false, timeout_queue_ := ⟨[]⟩ }

/-- The handler `reactor0` after a wait that reported the control handle readable
and a drain that read a shutdown message. -/
def reactor1 : EventHandlerImplementation :=
  { info_ := ⟨4, 1, [0, 0, 0, 0], [⟨3, 5, 1⟩, ⟨0, 0, 0⟩, ⟨0, 0, 0⟩, ⟨0, 0, 0⟩]⟩,
    interrupt_handles_ := (3, 4), shutdown_ := true, timeout_queue_ := ⟨[]⟩ }

/-- A turn of the loop in which the wait returns with the control handle readable. -/
def readableTick : EventHandlerImplementation.Tick :=
  { now_get := 0, arrived := [], status := .NO_ERROR, pending := fun _ => 1, now_handle := 0 }

/-- A handler whose wait set has two entries besides the control handle, both
with a watched signal pending. -/
def busyHandler : EventHandlerImplementation :=
  { info_ := ⟨4, 3, [0, 11, 12, 0], [⟨3, 5, 0⟩, ⟨8, 1, 1⟩, ⟨9, 1, 1⟩, ⟨0, 0, 0⟩]⟩,
    interrupt_handles_ := (3, 4), shutdown_ := false, timeout_queue_ := ⟨[]⟩ }

/-- The entry at index `i` has a watched signal pending: the condition
`wait_item.pending & wait_item.waitfor` of the loop of `HandleEvents`. -/
def signalled (h : EventHandlerImplementation) (i : Nat) : Prop :=
  ∃ it, h.info_.items_[i]? = some it ∧ it.pending &&& it.waitfor ≠ 0

/-- A concrete choice of the constants, used to evaluate the definitions. -/
def cfg (debug : Bool) : Config :=
  { DEBUG := debug, kInitialCapacity := 4, kInfinityTimeout := -1, kTimerId := -1,
    kShutdownId := -2, MX_HANDLE_INVALID := 0, MX_SIGNAL_READABLE := 1,
    MX_SIGNAL_PEER_CLOSED := 4, ids_distinct := by decide }

/-- A wait set with the control handle `3` and two more entries, capacity 4. -/
def ws3 : MagentaWaitManyInfo :=
  { capacity_ := 4, size_ := 3, descriptor_infos_ := [0, 11, 12, 0],
    items_ := [⟨3, 5, 0⟩, ⟨8, 1, 0⟩, ⟨9, 1, 2⟩, ⟨0, 0, 0⟩] }

/-- A wait set of size 8 and capacity 9. -/
def ws8 : MagentaWaitManyInfo :=
  { capacity_ := 9, size_ := 8, descriptor_infos_ := [0, 1, 2, 3, 4, 5, 6, 7, 0],
    items_ := [⟨1, 5, 0⟩, ⟨2, 5, 0⟩, ⟨3, 5, 0⟩, ⟨4, 5, 0⟩, ⟨5, 5, 0⟩, ⟨6, 5, 0⟩, ⟨7, 5, 0⟩,
      ⟨8, 5, 0⟩, ⟨0, 0, 0⟩] }

/-- The calls `AddHandle(1, 5, 0)`, ..., `AddHandle(n, 5, n - 1)`. -/
def addMany (n : Nat) : List MagentaWaitManyInfo.Op :=
  (List.range n).map (fun (i : Nat) => MagentaWaitManyInfo.Op.AddHandle (Int.ofNat i + 1) 5 i)

/-- The wait set built by the constructor followed by a sequence of calls. -/
def fromNew (K : Config) (M : Heap) (ops : List MagentaWaitManyInfo.Op) :
    Except Abort MagentaWaitManyInfo :=
  match MagentaWaitManyInfo.new K M with
  | .error e => .error e
  | .ok s => MagentaWaitManyInfo.run K M s ops

/-- Capacity before and after the call `AddHandle(n + 1, 5, n)` made on the
wait set that the constructor and the calls `addMany n` build; `none` when one of
the calls does not return. -/
def growthAt (K : Config) (M : Heap) (n : Nat) : Option (Nat × Nat) :=
  match fromNew K M (addMany n) with
  | .error _ => none
  | .ok s =>
    match MagentaWaitManyInfo.AddHandle K M s (Int.ofNat n + 1) 5 n with
    | .error _ => none
    | .ok s1 => some (s.capacity, s1.capacity)

/-- An allocator that always succeeds and hands out zeroed cells. -/
def heap0 : Heap :=
  { descriptor_infos_ok := fun _ => true, items_ok := fun _ => true,
    fresh_info := fun _ => 0, fresh_item := fun _ => ⟨0, 0, 0⟩ }

/-! ## Heap blocks: basic facts -/

theorem readAt_eq_ok {α : Type} {block : List α} {i : Nat} {v : α} :
    readAt block i = .ok v ↔ block[i]? = some v := by
  unfold readAt
  cases h : block[i]? <;> simp

theorem readAt_of_lt {α : Type} (block : List α) (i : Nat) (h : i < block.length) :
    readAt block i = .ok (block.get ⟨i, h⟩) := by
  rw [readAt_eq_ok]; simp [List.getElem?_eq_getElem h]

theorem writeAt_eq_ok {α : Type} {block out : List α} {i : Nat} {v : α} :
    writeAt block i v = .ok out ↔ i < block.length ∧ out = block.set i v := by
  unfold writeAt
  by_cases h : i < block.length <;> simp [h, eq_comm]

theorem realloc_length {α : Type} (block : List α) (n : Nat) (fresh : Nat → α) :
    (realloc block n fresh).length = n := by
  simp [realloc]

theorem realloc_getElem? {α : Type} (block : List α) (n : Nat) (fresh : Nat → α) (i : Nat)
    (hi : i < block.length) (hn : block.length ≤ n) :
    (realloc block n fresh)[i]? = block[i]? := by
  have h : i < n := by omega
  simp [realloc, List.getElem?_range h, List.getD_eq_getElem?_getD, List.getElem?_eq_getElem hi]

namespace MagentaWaitManyInfo

/-! ## Wait set: what each operation returns -/

theorem GrowArraysIfNeeded_ok {M : Heap} {s g : MagentaWaitManyInfo} {d : Nat}
    (h : GrowArraysIfNeeded M s d = .ok g) :
    (d < s.capacity_ ∧ g = s) ∨
    (s.capacity_ ≤ d ∧ M.descriptor_infos_ok (d + d / 2) = true ∧ M.items_ok (d + d / 2) = true ∧
      g = { s with
            descriptor_infos_ := realloc s.descriptor_infos_ (d + d / 2) M.fresh_info
            items_ := realloc s.items_ (d + d / 2) M.fresh_item
            capacity_ := d + d / 2 }) := by
  unfold GrowArraysIfNeeded at h
  by_cases hd : d < s.capacity_
  · left
    simp only [hd, if_true, Except.ok.injEq] at h
    exact ⟨hd, h.symm⟩
  · right
    simp only [hd, if_false, Nat.shiftRight_eq_div_pow, pow_one] at h
    cases h1 : M.descriptor_infos_ok (d + d / 2) <;> simp [h1] at h
    cases h2 : M.items_ok (d + d / 2) <;> simp [h2] at h
    exact ⟨by omega, rfl, rfl, h.symm⟩

theorem AddHandle_ok {K : Config} {M : Heap} {s s1 : MagentaWaitManyInfo}
    {handle : mx_handle_t} {signals : mx_signals_t} {di : DescriptorInfoPtr}
    (h : AddHandle K M s handle signals di = .ok s1) :
    ∃ g, GrowArraysIfNeeded M s (s.size_ + 1) = .ok g ∧
      s.size_ < g.descriptor_infos_.length ∧ s.size_ < g.items_.length ∧
      s1 = { g with
             descriptor_infos_ := g.descriptor_infos_.set s.size_ di
             items_ := g.items_.set s.size_ ⟨handle, signals, 0⟩
             size_ := s.size_ + 1 } := by
  unfold AddHandle at h
  split at h
  · exact absurd h (by simp)
  · cases hg : GrowArraysIfNeeded M s (s.size_ + 1) with
    | error e => simp [hg] at h
    | ok g =>
      simp only [hg] at h
      cases hd : writeAt g.descriptor_infos_ s.size_ di with
      | error e => simp [hd] at h
      | ok dis =>
        simp only [hd] at h
        cases hi : writeAt g.items_ s.size_ ⟨handle, signals, 0⟩ with
        | error e => simp [hi] at h
        | ok its =>
          simp only [hi, Except.ok.injEq] at h
          rw [writeAt_eq_ok] at hd hi
          refine ⟨g, rfl, hd.1, hi.1, ?_⟩
          rw [← h, hd.2, hi.2]

theorem findHandle_ok {items : List mx_wait_item_t} {handle : mx_handle_t} :
    ∀ (n idx j : Nat), findHandle items handle n idx = .ok j →
      idx ≤ j ∧ j ≤ idx + n ∧
      (j < idx + n → ∃ it, items[j]? = some it ∧ it.handle = handle) ∧
      (∀ k, idx ≤ k → k < j → ∃ it, items[k]? = some it ∧ it.handle ≠ handle) := by
  intro n
  induction n with
  | zero =>
    intro idx j h
    simp only [findHandle, Except.ok.injEq] at h
    subst h
    exact ⟨le_refl _, by omega, fun hlt => absurd hlt (by omega), fun k h1 h2 => absurd h1 (by omega)⟩
  | succ n ih =>
    intro idx j h
    unfold findHandle at h
    cases hr : readAt items idx with
    | error e => simp [hr] at h
    | ok it =>
      simp only [hr] at h
      rw [readAt_eq_ok] at hr
      by_cases hh : handle = it.handle
      · simp only [hh, if_true, Except.ok.injEq] at h
        subst h
        exact ⟨le_refl _, by omega, fun _ => ⟨it, hr, hh.symm⟩,
          fun k h1 h2 => absurd h1 (by omega)⟩
      · simp only [hh, if_false] at h
        obtain ⟨h1, h2, h3, h4⟩ := ih (idx + 1) j h
        refine ⟨by omega, by omega, fun hlt => h3 (by omega), fun k hk1 hk2 => ?_⟩
        by_cases hk : k = idx
        · subst hk
          exact ⟨it, hr, fun e => hh e.symm⟩
        · exact h4 k (by omega) hk2

theorem findHandle_total (items : List mx_wait_item_t) (handle : mx_handle_t) :
    ∀ (n idx : Nat), idx + n ≤ items.length → ∃ j, findHandle items handle n idx = .ok j := by
  intro n
  induction n with
  | zero => intro idx _; exact ⟨idx, rfl⟩
  | succ n ih =>
    intro idx hlen
    unfold findHandle
    have hlt : idx < items.length := by omega
    rw [readAt_of_lt items idx hlt]
    by_cases hh : handle = (items.get ⟨idx, hlt⟩).handle
    · exact ⟨idx, by simp only [hh, if_true]⟩
    · obtain ⟨j, hj⟩ := ih (idx + 1) (by omega)
      exact ⟨j, by simp only [hh, if_false, hj]⟩

theorem RemoveHandle_eq (K : Config) (s : MagentaWaitManyInfo) (handle : mx_handle_t) :
    RemoveHandle K s handle =
      if s.size_ = 0 then .error .out_of_bounds
      else
        match findHandle s.items_ handle (s.size_ - 1) 1 with
        | .error e => .error e
        | .ok idx =>
          if idx = s.size_ then .error .handle_not_in_list
          else if s.size_ - 1 < s.descriptor_infos_.length ∧ s.size_ - 1 < s.items_.length then
            .ok (removed K s idx)
          else .error .out_of_bounds := by
  unfold RemoveHandle
  by_cases h0 : s.size_ = 0
  · simp [h0]
  · simp only [h0, if_false]
    cases hf : findHandle s.items_ handle (s.size_ - 1) 1 with
    | error e => rfl
    | ok idx =>
      simp only []
      by_cases hidx : idx = s.size_
      · simp [hidx]
      · simp only [hidx, if_false]
        have hle := (findHandle_ok _ _ _ hf).2.1
        have hlt : idx ≤ s.size_ - 1 := by omega
        by_cases hlast : idx = s.size_ - 1
        · subst hlast
          simp only [ne_eq, not_true_eq_false, if_false, writeAt, removed, List.set_set]
          by_cases hd : s.size_ - 1 < s.descriptor_infos_.length <;>
            by_cases hi : s.size_ - 1 < s.items_.length <;> simp [hd, hi]
        · simp only [ne_eq, hlast, not_false_eq_true, if_true]
          by_cases hd : s.size_ - 1 < s.descriptor_infos_.length
          · by_cases hi : s.size_ - 1 < s.items_.length
            · have hd1 : idx < s.descriptor_infos_.length := by omega
              have hi1 : idx < s.items_.length := by omega
              simp [readAt_of_lt _ _ hd, readAt_of_lt _ _ hi, writeAt, hd, hi, hd1, hi1, removed,
                List.getD_eq_getElem?_getD, List.getElem?_eq_getElem]
            · have hd1 : idx < s.descriptor_infos_.length := by omega
              have hr : readAt s.items_ (s.size_ - 1) = .error .out_of_bounds := by
                unfold readAt
                rw [List.getElem?_eq_none (by omega)]
              simp [readAt_of_lt _ _ hd, writeAt, hd, hi, hd1, hr]
          · have hr : readAt s.descriptor_infos_ (s.size_ - 1) = .error .out_of_bounds := by
              unfold readAt
              rw [List.getElem?_eq_none (by omega)]
            simp [hr, hd]

theorem AddHandle_frame {K : Config} {M : Heap} {s s1 : MagentaWaitManyInfo}
    {handle : mx_handle_t} {signals : mx_signals_t} {di : DescriptorInfoPtr}
    (hwf : s.WellFormed) (h : AddHandle K M s handle signals di = .ok s1) :
    s1.WellFormed ∧ s1.size_ = s.size_ + 1 ∧ s.capacity_ ≤ s1.capacity_ ∧
      (∀ i, i < s.size_ →
        s1.items_[i]? = s.items_[i]? ∧ s1.descriptor_infos_[i]? = s.descriptor_infos_[i]?) ∧
      s1.items_[s.size_]? = some ⟨handle, signals, 0⟩ ∧
      s1.descriptor_infos_[s.size_]? = some di := by
  obtain ⟨hl1, hl2, hl3⟩ := hwf
  obtain ⟨g, hg, hb1, hb2, rfl⟩ := AddHandle_ok h
  rcases GrowArraysIfNeeded_ok hg with ⟨hd, hgs⟩ | ⟨hd, -, -, hgs⟩
  · subst hgs
    refine ⟨⟨by simpa using hl1, by simpa using hl2, Nat.le_of_lt hd⟩, rfl, le_refl _,
      fun i hi => ?_, ?_, ?_⟩
    · have hne : g.size_ ≠ i := by omega
      simp [List.getElem?_set_ne hne]
    · simp only [List.getElem?_set_self hb2]
    · simp only [List.getElem?_set_self hb1]
  · subst hgs
    simp only [realloc_length] at hb1 hb2
    have hne : ∀ i, i < s.size_ → s.size_ ≠ i := fun i hi => by omega
    refine ⟨⟨by simp [realloc_length], by simp [realloc_length], ?_⟩, rfl,
      ?_, fun i hi => ?_, ?_, ?_⟩
    · show s.size_ + 1 ≤ s.size_ + 1 + (s.size_ + 1) / 2
      omega
    · show s.capacity_ ≤ s.size_ + 1 + (s.size_ + 1) / 2
      omega
    · simp only [List.getElem?_set_ne (hne i hi)]
      exact ⟨realloc_getElem? _ _ _ _ (by omega) (by omega),
        realloc_getElem? _ _ _ _ (by omega) (by omega)⟩
    · simp only [List.getElem?_set_self (show s.size_ < (realloc s.items_ _ M.fresh_item).length by
        rw [realloc_length]; exact hb2)]
    · simp only [List.getElem?_set_self
        (show s.size_ < (realloc s.descriptor_infos_ _ M.fresh_info).length by
          rw [realloc_length]; exact hb1)]

theorem RemoveHandle_ok {K : Config} {s s1 : MagentaWaitManyInfo} {handle : mx_handle_t}
    (h : RemoveHandle K s handle = .ok s1) :
    ∃ idx, 1 ≤ idx ∧ idx < s.size_ ∧ s1 = removed K s idx ∧
      s.size_ - 1 < s.descriptor_infos_.length ∧ s.size_ - 1 < s.items_.length ∧
      (∃ it, s.items_[idx]? = some it ∧ it.handle = handle) ∧
      (∀ k, 1 ≤ k → k < idx → ∃ it, s.items_[k]? = some it ∧ it.handle ≠ handle) := by
  rw [RemoveHandle_eq] at h
  by_cases h0 : s.size_ = 0
  · simp [h0] at h
  · simp only [h0, if_false] at h
    cases hf : findHandle s.items_ handle (s.size_ - 1) 1 with
    | error e => simp [hf] at h
    | ok idx =>
      simp only [hf] at h
      obtain ⟨f1, f2, f3, f4⟩ := findHandle_ok _ _ _ hf
      by_cases hidx : idx = s.size_
      · simp [hidx] at h
      · simp only [hidx, if_false] at h
        by_cases hb : s.size_ - 1 < s.descriptor_infos_.length ∧ s.size_ - 1 < s.items_.length
        · simp only [hb, and_self, if_true, Except.ok.injEq] at h
          exact ⟨idx, f1, by omega, h.symm, hb.1, hb.2, f3 (by omega), f4⟩
        · simp [hb] at h

theorem removed_getElem? (K : Config) (s : MagentaWaitManyInfo) (idx i : Nat)
    (h1 : i ≠ idx) (h2 : i ≠ s.size_ - 1) :
    (removed K s idx).items_[i]? = s.items_[i]? ∧
      (removed K s idx).descriptor_infos_[i]? = s.descriptor_infos_[i]? := by
  simp [removed, List.getElem?_set_ne (Ne.symm h1), List.getElem?_set_ne (Ne.symm h2)]

theorem RemoveHandle_frame {K : Config} {s s1 : MagentaWaitManyInfo} {handle : mx_handle_t}
    (hwf : s.WellFormed) (h : RemoveHandle K s handle = .ok s1) :
    s1.WellFormed ∧ s1.size_ + 1 = s.size_ ∧ 1 ≤ s1.size_ ∧ s1.capacity_ = s.capacity_ ∧
      s1.items_[0]? = s.items_[0]? ∧ s1.descriptor_infos_[0]? = s.descriptor_infos_[0]? := by
  obtain ⟨hl1, hl2, hl3⟩ := hwf
  obtain ⟨idx, h1, h2, rfl, -, -, -, -⟩ := RemoveHandle_ok h
  obtain ⟨e1, e2⟩ := removed_getElem? K s idx 0 (by omega) (by omega)
  refine ⟨⟨by simpa [removed] using hl1, by simpa [removed] using hl2, ?_⟩, ?_, ?_, rfl, e1, e2⟩
  · simp only [removed]; omega
  · simp only [removed]; omega
  · simp only [removed]; omega

theorem step_invariant {K : Config} {M : Heap} {s s1 : MagentaWaitManyInfo} {op : Op}
    (hwf : s.WellFormed) (hsz : 1 ≤ s.size_) (h : step K M s op = .ok s1) :
    s1.WellFormed ∧ 1 ≤ s1.size_ ∧ s.capacity_ ≤ s1.capacity_ ∧
      s1.size_ + (if op.isRemove then 1 else 0) = s.size_ + (if op.isAdd then 1 else 0) ∧
      s1.slot 0 = s.slot 0 := by
  cases op with
  | AddHandle hd sig di =>
    obtain ⟨a1, a2, a3, a4, -, -⟩ := AddHandle_frame hwf h
    obtain ⟨b1, b2⟩ := a4 0 (by omega)
    exact ⟨a1, by omega, a3, by simp [Op.isRemove, Op.isAdd, a2], by simp [slot, b1, b2]⟩
  | RemoveHandle hd =>
    obtain ⟨a1, a2, a3, a4, b1, b2⟩ := RemoveHandle_frame hwf h
    exact ⟨a1, a3, by omega, by simp [Op.isRemove, Op.isAdd, a2], by simp [slot, b1, b2]⟩

theorem run_invariant {K : Config} {M : Heap} :
    ∀ (ops : List Op) (s s1 : MagentaWaitManyInfo), s.WellFormed → 1 ≤ s.size_ →
      run K M s ops = .ok s1 →
      s1.WellFormed ∧ 1 ≤ s1.size_ ∧ s.capacity_ ≤ s1.capacity_ ∧
        s1.size_ + ops.countP Op.isRemove = s.size_ + ops.countP Op.isAdd ∧
        s1.slot 0 = s.slot 0 := by
  intro ops
  induction ops with
  | nil =>
    intro s s1 hwf hsz h
    simp only [run, Except.ok.injEq] at h
    subst h
    exact ⟨hwf, hsz, le_refl _, by simp, rfl⟩
  | cons op ops ih =>
    intro s s1 hwf hsz h
    unfold run at h
    cases hs : step K M s op with
    | error e => simp [hs] at h
    | ok s2 =>
      simp only [hs] at h
      obtain ⟨a1, a2, a3, a4, a5⟩ := step_invariant hwf hsz hs
      obtain ⟨b1, b2, b3, b4, b5⟩ := ih s2 s1 a1 a2 h
      refine ⟨b1, b2, le_trans a3 b3, ?_, b5.trans a5⟩
      simp only [List.countP_cons]
      split at a4 <;> split at a4 <;> simp_all <;> omega

/-- C1: on a well-formed wait set that holds the control handle in slot 0
(size at least 1), after any sequence of `AddHandle` / `RemoveHandle` calls that
all return, the size is the initial size plus the number of `AddHandle` calls
minus the number of `RemoveHandle` calls, and slot 0 (item and descriptor info)
is the one it was at the start. -/
theorem C1_size_counts_and_slot0_fixed (K : Config) (M : Heap) (s s1 : MagentaWaitManyInfo)
    (ops : List Op) (hwf : s.WellFormed) (hsz : 1 ≤ s.size)
    (hrun : run K M s ops = .ok s1) :
    (s1.size : Int) = (s.size : Int) + (ops.countP Op.isAdd : Int) - (ops.countP Op.isRemove : Int) ∧
      s1.slot 0 = s.slot 0 ∧ (s.slot 0).isSome = true := by
  obtain ⟨-, -, -, h4, h5⟩ := run_invariant ops s s1 hwf hsz hrun
  refine ⟨?_, h5, ?_⟩
  · simp only [size] at *
    omega
  · obtain ⟨hl1, hl2, hl3⟩ := hwf
    simp only [size] at hsz
    have e1 : 0 < s.items_.length := by omega
    have e2 : 0 < s.descriptor_infos_.length := by omega
    simp [slot, List.getElem?_eq_getElem e1, List.getElem?_eq_getElem e2]

theorem C1_size_counts_and_slot0_fixed_witness :
    ws3.WellFormed ∧ 1 ≤ ws3.size ∧
      run (cfg true) heap0 ws3 [.AddHandle 10 1 13, .RemoveHandle 8, .RemoveHandle 9] =
        .ok ⟨6, 2, [0, 13, 0, 0, 0, 0],
          [⟨3, 5, 0⟩, ⟨10, 1, 0⟩, ⟨0, 0, 0⟩, ⟨0, 0, 0⟩, ⟨0, 0, 0⟩, ⟨0, 0, 0⟩]⟩ ∧
      ((2 : Nat) : Int) = ((3 : Nat) : Int) + ((1 : Nat) : Int) - ((2 : Nat) : Int) :=
  have hrun : run (cfg true) heap0 ws3 [.AddHandle 10 1 13, .RemoveHandle 8, .RemoveHandle 9] =
      .ok ⟨6, 2, [0, 13, 0, 0, 0, 0],
        [⟨3, 5, 0⟩, ⟨10, 1, 0⟩, ⟨0, 0, 0⟩, ⟨0, 0, 0⟩, ⟨0, 0, 0⟩, ⟨0, 0, 0⟩]⟩ := by rfl
  ⟨by decide, by decide, hrun,
    (C1_size_counts_and_slot0_fixed (cfg true) heap0 ws3 _ _ (by decide) (by decide) hrun).1⟩

/-! ## Wait set: the live entries after a removal -/

theorem take_length_pred_perm {α : Type} : ∀ (L : List α) (y : α),
    L[L.length - 1]? = some y → L.Perm (y :: L.take (L.length - 1)) := by
  intro L
  induction L with
  | nil => intro y h; simp at h
  | cons a t ih =>
    intro y h
    cases t with
    | nil =>
      simp at h
      subst h
      simp
    | cons b t2 =>
      have h2 : (b :: t2)[(b :: t2).length - 1]? = some y := by
        simpa using h
      have := ih y h2
      simp only [List.length_cons, Nat.add_sub_cancel, List.take_succ_cons] at this ⊢
      exact (List.Perm.cons a this).trans (List.Perm.swap _ _ _)

theorem perm_swap_remove {α : Type} : ∀ (L : List α) (i : Nat) (x y : α),
    L[i]? = some x → L[L.length - 1]? = some y →
      L.Perm (x :: ((L.set i y).take (L.length - 1))) := by
  intro L
  induction L with
  | nil => intro i x y h; simp at h
  | cons a t ih =>
    intro i x y hx hy
    cases t with
    | nil =>
      cases i with
      | zero => simp at hx; subst hx; simp
      | succ j => simp at hx
    | cons b t2 =>
      have hy2 : (b :: t2)[(b :: t2).length - 1]? = some y := by
        simpa using hy
      cases i with
      | zero =>
        simp only [List.getElem?_cons_zero, Option.some.injEq] at hx
        subst hx
        have := take_length_pred_perm (b :: t2) y hy2
        simp only [List.length_cons, Nat.add_sub_cancel, List.set_cons_zero,
          List.take_succ_cons] at this ⊢
        exact (List.Perm.cons a this)
      | succ j =>
        have hx2 : (b :: t2)[j]? = some x := by simpa using hx
        have := ih j x y hx2 hy2
        simp only [List.length_cons, Nat.add_sub_cancel, List.set_cons_succ,
          List.take_succ_cons] at this ⊢
        exact (List.Perm.cons a this).trans (List.Perm.swap _ _ _)

theorem live_getElem? (s : MagentaWaitManyInfo) (j : Nat) :
    s.live[j]? = if j < s.size_ then s.slot j else none := by
  unfold live slot
  simp only [List.zip, List.getElem?_zipWith', List.getElem?_take]
  by_cases hj : j < s.size_
  · simp only [hj, if_true]
    cases s.items_[j]? <;> cases s.descriptor_infos_[j]? <;> simp
  · simp [hj]

theorem live_length (s : MagentaWaitManyInfo) (hwf : s.WellFormed) : s.live.length = s.size_ := by
  obtain ⟨hl1, hl2, hl3⟩ := hwf
  simp [live, hl1, hl2, hl3]

theorem live_handles (s : MagentaWaitManyInfo) (hwf : s.WellFormed) :
    s.live.map (fun e => e.1.handle) = (s.items_.take s.size_).map mx_wait_item_t.handle := by
  obtain ⟨hl1, hl2, hl3⟩ := hwf
  have : s.live.map Prod.fst = s.items_.take s.size_ := by
    unfold live
    apply List.map_fst_zip
    simp [hl1, hl2, hl3]
  rw [← this, List.map_map]
  rfl

theorem Distinct.index_eq {s : MagentaWaitManyInfo} (hd : s.Distinct) (hwf : s.WellFormed)
    {i j : Nat} {a b : mx_wait_item_t} (hi : i < s.size_) (hj : j < s.size_)
    (ha : s.items_[i]? = some a) (hb : s.items_[j]? = some b) (hab : a.handle = b.handle) :
    i = j := by
  obtain ⟨hl1, hl2, hl3⟩ := hwf
  have hlen : ((s.items_.take s.size_).map mx_wait_item_t.handle).length = s.size_ := by
    simp [hl1, hl3]
  have key : ∀ k c, k < s.size_ → s.items_[k]? = some c →
      ((s.items_.take s.size_).map mx_wait_item_t.handle)[k]? = some c.handle := by
    intro k c hk hc
    simp [List.getElem?_take, hk, hc]
  have hn := List.nodup_iff_getElem?_ne_getElem?.1 hd
  by_contra hne
  rcases Nat.lt_or_gt_of_ne hne with hlt | hlt
  · exact hn i j hlt (by omega) (by rw [key i a hi ha, key j b hj hb, hab])
  · exact hn j i hlt (by omega) (by rw [key i a hi ha, key j b hj hb, hab])

theorem RemoveHandle_at {K : Config} {s : MagentaWaitManyInfo} {handle : mx_handle_t} {i : Nat}
    (hwf : s.WellFormed) (hi1 : 1 ≤ i) (hi2 : i < s.size_)
    (hat : ∃ it, s.items_[i]? = some it ∧ it.handle = handle)
    (hfirst : ∀ k, 1 ≤ k → k < i → ∀ it, s.items_[k]? = some it → it.handle ≠ handle) :
    RemoveHandle K s handle = .ok (removed K s i) := by
  obtain ⟨hl1, hl2, hl3⟩ := hwf
  obtain ⟨it, hit, hh⟩ := hat
  obtain ⟨j, hj⟩ := findHandle_total s.items_ handle (s.size_ - 1) 1
    (by omega)
  obtain ⟨f1, f2, f3, f4⟩ := findHandle_ok _ _ _ hj
  have hji : j = i := by
    rcases Nat.lt_trichotomy j i with hlt | heq | hgt
    · obtain ⟨it2, h2, h3⟩ := f3 (by omega)
      exact absurd h3 (hfirst j f1 hlt it2 h2)
    · exact heq
    · obtain ⟨it2, h2, h3⟩ := f4 i hi1 hgt
      rw [hit] at h2
      cases h2
      exact absurd hh h3
  subst hji
  rw [RemoveHandle_eq]
  have h0 : s.size_ ≠ 0 := by omega
  have hne : j ≠ s.size_ := by omega
  have hb : s.size_ - 1 < s.descriptor_infos_.length ∧ s.size_ - 1 < s.items_.length := by
    constructor <;> omega
  simp only [h0, if_false, hj, hne, hb, and_self, if_true]

theorem live_removed (K : Config) (s : MagentaWaitManyInfo) (i : Nat) (hwf : s.WellFormed)
    (hi2 : i < s.size_) (y : mx_wait_item_t × DescriptorInfoPtr)
    (hy : s.slot (s.size_ - 1) = some y) :
    (removed K s i).live = (s.live.set i y).take (s.live.length - 1) := by
  have hlen := live_length s hwf
  obtain ⟨hl1, hl2, hl3⟩ := hwf
  have hi3 : s.items_[s.size_ - 1]? = some y.1 ∧ s.descriptor_infos_[s.size_ - 1]? = some y.2 := by
    unfold slot at hy
    cases h1 : s.items_[s.size_ - 1]? <;> cases h2 : s.descriptor_infos_[s.size_ - 1]? <;>
      simp [h1, h2] at hy
    subst hy
    exact ⟨rfl, rfl⟩
  apply List.ext_getElem?
  intro j
  rw [live_getElem?, List.getElem?_take, hlen]
  show (if j < s.size_ - 1 then (removed K s i).slot j else none) = _
  by_cases hj : j < s.size_ - 1
  · simp only [hj, if_true]
    have hjl : j ≠ s.size_ - 1 := by omega
    by_cases hji : j = i
    · subst hji
      have e1 : j < s.items_.length := by omega
      have e2 : j < s.descriptor_infos_.length := by omega
      have e3 : j < s.live.length := by omega
      rw [List.getElem?_set_self e3]
      simp [slot, removed, List.getElem?_set_ne (Ne.symm hjl), List.getElem?_set_self e1,
        List.getElem?_set_self e2, List.getD_eq_getElem?_getD, hi3.1, hi3.2]
    · obtain ⟨e1, e2⟩ := removed_getElem? K s i j hji hjl
      rw [List.getElem?_set_ne (Ne.symm hji), live_getElem?]
      have : j < s.size_ := by omega
      simp [slot, e1, e2, this]
  · simp [hj]

/-- C2: on a well-formed wait set with pairwise distinct handles, removing a
handle stored at an index `i` with `1 ≤ i < size` returns, and the live entries
before the call are a rearrangement of the entry of that handle together with
the live entries after the call (each with its item and descriptor info); the
handle itself is no longer among the live entries. -/
theorem C2_remove_takes_out_exactly_one (K : Config) (s : MagentaWaitManyInfo)
    (handle : mx_handle_t) (i : Nat) (e : mx_wait_item_t × DescriptorInfoPtr)
    (hwf : s.WellFormed) (hd : s.Distinct) (hi1 : 1 ≤ i) (hi2 : i < s.size)
    (he : s.slot i = some e) (hh : e.1.handle = handle) :
    ∃ s1, RemoveHandle K s handle = .ok s1 ∧ s1.size + 1 = s.size ∧
      s.live.Perm (e :: s1.live) ∧ handle ∉ s1.live.map (fun x => x.1.handle) := by
  simp only [size] at hi2 ⊢
  have hit : s.items_[i]? = some e.1 := by
    unfold slot at he
    cases h1 : s.items_[i]? <;> cases h2 : s.descriptor_infos_[i]? <;> simp [h1, h2] at he
    subst he
    rfl
  have hrem : RemoveHandle K s handle = .ok (removed K s i) := by
    apply RemoveHandle_at hwf hi1 hi2 ⟨e.1, hit, hh⟩
    intro k hk1 hk2 it hkit hkh
    have := hd.index_eq hwf (show k < s.size_ by omega) hi2 hkit hit (hkh.trans hh.symm)
    omega
  have hlen := live_length s hwf
  have hlast : ∃ y, s.slot (s.size_ - 1) = some y := by
    obtain ⟨hl1, hl2, hl3⟩ := hwf
    have e1 : s.size_ - 1 < s.items_.length := by omega
    have e2 : s.size_ - 1 < s.descriptor_infos_.length := by omega
    exact ⟨(s.items_.get ⟨_, e1⟩, s.descriptor_infos_.get ⟨_, e2⟩),
      by simp [slot, List.getElem?_eq_getElem e1, List.getElem?_eq_getElem e2]⟩
  obtain ⟨y, hy⟩ := hlast
  have hperm : s.live.Perm (e :: (removed K s i).live) := by
    rw [live_removed K s i hwf hi2 y hy]
    apply perm_swap_remove
    · rw [live_getElem?]; simp [hi2, he]
    · rw [live_getElem?, hlen]
      simp [show s.size_ - 1 < s.size_ by omega, hy]
  refine ⟨removed K s i, hrem, by simp only [removed]; omega, hperm, ?_⟩
  have hnd : (s.live.map (fun x => x.1.handle)).Nodup := by
    rw [live_handles s hwf]; exact hd
  have hp2 := (hperm.map (fun x => x.1.handle)).nodup_iff.1 hnd
  rw [List.map_cons, List.nodup_cons, hh] at hp2
  exact hp2.1

theorem C2_remove_takes_out_exactly_one_witness :
    ws3.WellFormed ∧ ws3.Distinct ∧ 1 ≤ 1 ∧ 1 < ws3.size ∧
      ws3.slot 1 = some (⟨8, 1, 0⟩, 11) ∧
      ∃ s1, RemoveHandle (cfg false) ws3 8 = .ok s1 ∧ s1.size + 1 = ws3.size ∧
        ws3.live.Perm ((⟨8, 1, 0⟩, 11) :: s1.live) ∧ (8 : Int) ∉ s1.live.map (fun x => x.1.handle) :=
  ⟨by decide, by decide, by decide, by decide, by rfl,
    C2_remove_takes_out_exactly_one (cfg false) ws3 8 1 (⟨8, 1, 0⟩, 11)
      (by decide) (by decide) (by decide) (by decide) (by rfl) (by rfl)⟩

/-! ## Wait set: the duplicate check of `AddHandle` -/

theorem checkNotInList_found {items : List mx_wait_item_t} {handle : mx_handle_t} :
    ∀ (n idx i : Nat) (it : mx_wait_item_t), idx ≤ i → i < idx + n →
      items[i]? = some it → it.handle = handle →
      checkNotInList items handle n idx = .error .handle_already_in_list := by
  intro n
  induction n with
  | zero => intro idx i it h1 h2; omega
  | succ n ih =>
    intro idx i it h1 h2 h3 h4
    unfold checkNotInList
    have hil : i < items.length := by
      by_contra hc
      rw [List.getElem?_eq_none (by omega)] at h3
      cases h3
    have hlt : idx < items.length := by omega
    rw [readAt_of_lt items idx hlt]
    by_cases hh : (items.get ⟨idx, hlt⟩).handle = handle
    · simp only [hh, if_true]
    · simp only [hh, if_false]
      have hne : idx ≠ i := by
        intro e
        subst e
        rw [List.getElem?_eq_getElem hlt] at h3
        cases h3
        exact hh h4
      exact ih (idx + 1) i it (by omega) (by omega) h3 h4

/-- C3 (as the code has it): in a build with `DEBUG` defined, `AddHandle` ends
in the fatal error "The handle is already in the list!" whenever the handle is
stored at an index below `size`; in particular, after an `AddHandle` that
returned, a second `AddHandle` with the same handle ends in that fatal error. -/
theorem C3_debug_build_rejects_duplicate (K : Config) (M : Heap) (s : MagentaWaitManyInfo)
    (handle : mx_handle_t) (signals : mx_signals_t) (di : DescriptorInfoPtr)
    (hdebug : K.DEBUG = true) :
    (∀ i it, i < s.size → s.items_[i]? = some it → it.handle = handle →
      AddHandle K M s handle signals di = .error .handle_already_in_list) ∧
    (∀ s1 signals2 di2, AddHandle K M s handle signals di = .ok s1 →
      AddHandle K M s1 handle signals2 di2 = .error .handle_already_in_list) := by
  have key : ∀ (t : MagentaWaitManyInfo) (sg : mx_signals_t) (d : DescriptorInfoPtr) i it,
      i < t.size_ → t.items_[i]? = some it → it.handle = handle →
      AddHandle K M t handle sg d = .error .handle_already_in_list := by
    intro t sg d i it hi hit hh
    unfold AddHandle
    rw [hdebug]
    simp only [if_true]
    rw [checkNotInList_found t.size_ 0 i it (Nat.zero_le _) (by omega) hit hh]
  refine ⟨fun i it hi hit hh => key s signals di i it hi hit hh, ?_⟩
  intro s1 signals2 di2 h1
  obtain ⟨g, -, -, hb, rfl⟩ := AddHandle_ok h1
  exact key _ signals2 di2 s.size_ ⟨handle, signals, 0⟩ (by simp)
    (by simp only [List.getElem?_set_self hb]) rfl

theorem C3_debug_build_rejects_duplicate_witness :
    (cfg true).DEBUG = true ∧
      AddHandle (cfg true) heap0 ws3 8 1 0 = .error .handle_already_in_list :=
  ⟨rfl, (C3_debug_build_rejects_duplicate (cfg true) heap0 ws3 8 1 0 rfl).1 1 ⟨8, 1, 0⟩
    (by decide) (by rfl) (by rfl)⟩

/-- C3, counterexample: in a build without `DEBUG` the handle `8`, already stored
at index 1 of `ws3`, is added a second time; the call returns and the wait set
has two entries with that handle. -/
theorem C3_release_build_accepts_duplicate :
    (cfg false).DEBUG = false ∧ (1 < ws3.size ∧ ws3.items_[1]? = some ⟨8, 1, 0⟩) ∧
      AddHandle (cfg false) heap0 ws3 8 1 0 =
        .ok ⟨6, 4, [0, 11, 12, 0, 0, 0],
          [⟨3, 5, 0⟩, ⟨8, 1, 0⟩, ⟨9, 1, 2⟩, ⟨8, 1, 0⟩, ⟨0, 0, 0⟩, ⟨0, 0, 0⟩]⟩ ∧
      ¬ (∃ e, AddHandle (cfg false) heap0 ws3 8 1 0 = .error e) := by
  refine ⟨rfl, ⟨by decide, rfl⟩, rfl, ?_⟩
  rintro ⟨e, he⟩
  have h : AddHandle (cfg false) heap0 ws3 8 1 0 =
      .ok ⟨6, 4, [0, 11, 12, 0, 0, 0],
        [⟨3, 5, 0⟩, ⟨8, 1, 0⟩, ⟨9, 1, 2⟩, ⟨8, 1, 0⟩, ⟨0, 0, 0⟩, ⟨0, 0, 0⟩]⟩ := rfl
  rw [h] at he
  cases he

/-! ## Wait set: when `RemoveHandle` aborts -/

theorem RemoveHandle_cases (K : Config) (s : MagentaWaitManyInfo) (handle : mx_handle_t)
    (hwf : s.WellFormed) (hsz : 1 ≤ s.size_) :
    (RemoveHandle K s handle = .error .handle_not_in_list ∧
      ∀ k, 1 ≤ k → k < s.size_ → ∀ it, s.items_[k]? = some it → it.handle ≠ handle) ∨
    (∃ idx it, RemoveHandle K s handle = .ok (removed K s idx) ∧ 1 ≤ idx ∧ idx < s.size_ ∧
      s.items_[idx]? = some it ∧ it.handle = handle) := by
  obtain ⟨hl1, hl2, hl3⟩ := hwf
  obtain ⟨j, hj⟩ := findHandle_total s.items_ handle (s.size_ - 1) 1
    (by omega)
  obtain ⟨f1, f2, f3, f4⟩ := findHandle_ok _ _ _ hj
  have h0 : s.size_ ≠ 0 := by omega
  rw [RemoveHandle_eq]
  simp only [h0, if_false, hj]
  by_cases hjs : j = s.size_
  · left
    refine ⟨by simp only [hjs, if_true], fun k hk1 hk2 it hit => ?_⟩
    obtain ⟨it2, h2, h3⟩ := f4 k hk1 (by omega)
    rw [hit] at h2
    cases h2
    exact h3
  · right
    obtain ⟨it, h2, h3⟩ := f3 (by omega)
    have hb : s.size_ - 1 < s.descriptor_infos_.length ∧ s.size_ - 1 < s.items_.length := by
      constructor <;> omega
    exact ⟨j, it, by simp only [hjs, if_false, hb, and_self, if_true], f1, by omega, h2, h3⟩

/-- C4: on a well-formed wait set of size at least 1, `RemoveHandle(h)` ends in
a fatal error exactly when `h` is stored at no index `i` with `1 ≤ i < size`
(and the error is then "Handle is not in the list!"); so with pairwise distinct
handles removing the handle of slot 0 ends in that error, and on a wait set of
size 1 every `RemoveHandle` does. -/
theorem C4_remove_aborts_iff_absent (K : Config) (s : MagentaWaitManyInfo)
    (hwf : s.WellFormed) (hsz : 1 ≤ s.size) :
    (∀ handle, (∃ e, RemoveHandle K s handle = .error e ∧ e.isFatal = true) ↔
      ¬ ∃ i it, 1 ≤ i ∧ i < s.size ∧ s.items_[i]? = some it ∧ it.handle = handle) ∧
    (∀ handle, (∃ e, RemoveHandle K s handle = .error e) →
      RemoveHandle K s handle = .error .handle_not_in_list) ∧
    (s.Distinct → ∀ it0, s.items_[0]? = some it0 →
      RemoveHandle K s it0.handle = .error .handle_not_in_list) ∧
    (s.size = 1 → ∀ handle, RemoveHandle K s handle = .error .handle_not_in_list) := by
  simp only [size] at hsz ⊢
  have absent : ∀ handle,
      (¬ ∃ i it, 1 ≤ i ∧ i < s.size_ ∧ s.items_[i]? = some it ∧ it.handle = handle) →
      RemoveHandle K s handle = .error .handle_not_in_list := by
    intro handle hno
    rcases RemoveHandle_cases K s handle hwf hsz with ⟨h1, -⟩ | ⟨idx, it, -, h2, h3, h4, h5⟩
    · exact h1
    · exact absurd ⟨idx, it, h2, h3, h4, h5⟩ hno
  refine ⟨fun handle => ⟨?_, fun hno => ⟨_, absent handle hno, rfl⟩⟩, ?_, ?_, ?_⟩
  · rintro ⟨e, he, -⟩ ⟨i, it, hi1, hi2, hit, hh⟩
    rcases RemoveHandle_cases K s handle hwf hsz with ⟨-, h1⟩ | ⟨idx, it2, h1, -⟩
    · exact h1 i hi1 hi2 it hit hh
    · rw [h1] at he
      cases he
  · rintro handle ⟨e, he⟩
    rcases RemoveHandle_cases K s handle hwf hsz with ⟨h1, -⟩ | ⟨idx, it2, h1, -⟩
    · exact h1
    · rw [h1] at he
      cases he
  · intro hd it0 h0
    apply absent
    rintro ⟨i, it, hi1, hi2, hit, hh⟩
    have := hd.index_eq hwf hi2 (show 0 < s.size_ by omega) hit h0 hh
    omega
  · intro h1 handle
    apply absent
    rintro ⟨i, it, hi1, hi2, -, -⟩
    omega

theorem C4_remove_aborts_iff_absent_witness :
    ws3.WellFormed ∧ 1 ≤ ws3.size ∧
      RemoveHandle (cfg false) ws3 3 = .error .handle_not_in_list :=
  ⟨by decide, by decide,
    (C4_remove_aborts_iff_absent (cfg false) ws3 (by decide) (by decide)).2.2.1
      (by decide) ⟨3, 5, 0⟩ rfl⟩

/-! ## Wait set: capacity -/

theorem run_capacity {K : Config} {M : Heap} :
    ∀ (ops : List Op) (s s1 : MagentaWaitManyInfo), run K M s ops = .ok s1 →
      s.capacity_ ≤ s1.capacity_ := by
  intro ops
  induction ops with
  | nil =>
    intro s s1 h
    simp only [run, Except.ok.injEq] at h
    subst h
    exact le_refl _
  | cons op ops ih =>
    intro s s1 h
    unfold run at h
    cases hs : step K M s op with
    | error e => simp [hs] at h
    | ok s2 =>
      simp only [hs] at h
      refine le_trans ?_ (ih s2 s1 h)
      cases op with
      | AddHandle hd sig di =>
        obtain ⟨g, hg, -, -, rfl⟩ := AddHandle_ok hs
        rcases GrowArraysIfNeeded_ok hg with ⟨-, rfl⟩ | ⟨hd, -, -, rfl⟩
        · exact le_refl _
        · show s.capacity_ ≤ s.size_ + 1 + (s.size_ + 1) / 2
          omega
      | RemoveHandle hd =>
        obtain ⟨idx, -, -, rfl, -⟩ := RemoveHandle_ok hs
        exact le_refl _

/-- C9: the capacity never shrinks. A call of `GrowArraysIfNeeded`, `AddHandle`
or `RemoveHandle` that returns leaves a capacity at least as large as before
(`RemoveHandle` leaves it as it was), and so does every sequence of `AddHandle`
and `RemoveHandle` calls that all return. -/
theorem C9_capacity_never_shrinks (K : Config) (M : Heap) (s s1 : MagentaWaitManyInfo) :
    (∀ desired_size, GrowArraysIfNeeded M s desired_size = .ok s1 → s.capacity ≤ s1.capacity) ∧
    (∀ handle signals di, AddHandle K M s handle signals di = .ok s1 →
      s.capacity ≤ s1.capacity) ∧
    (∀ handle, RemoveHandle K s handle = .ok s1 → s1.capacity = s.capacity) ∧
    (∀ ops, run K M s ops = .ok s1 → s.capacity ≤ s1.capacity) := by
  refine ⟨?_, ?_, ?_, ?_⟩
  · intro d h
    rcases GrowArraysIfNeeded_ok h with ⟨-, rfl⟩ | ⟨hd, -, -, rfl⟩
    · exact le_refl _
    · show s.capacity_ ≤ d + d / 2
      omega
  · intro handle signals di h
    have hr : run K M s [.AddHandle handle signals di] = .ok s1 := by
      simp only [run, step, h]
    exact run_capacity _ s s1 hr
  · intro handle h
    obtain ⟨idx, -, -, rfl, -⟩ := RemoveHandle_ok h
    rfl
  · intro ops h
    exact run_capacity ops s s1 h

theorem C9_capacity_never_shrinks_witness :
    run (cfg false) heap0 ws3 [.AddHandle 10 1 13, .RemoveHandle 8, .RemoveHandle 9] =
        .ok ⟨6, 2, [0, 13, 0, 0, 0, 0],
          [⟨3, 5, 0⟩, ⟨10, 1, 0⟩, ⟨0, 0, 0⟩, ⟨0, 0, 0⟩, ⟨0, 0, 0⟩, ⟨0, 0, 0⟩]⟩ ∧
      (4 : Nat) ≤ 6 :=
  have hrun : run (cfg false) heap0 ws3 [.AddHandle 10 1 13, .RemoveHandle 8, .RemoveHandle 9] =
      .ok ⟨6, 2, [0, 13, 0, 0, 0, 0],
        [⟨3, 5, 0⟩, ⟨10, 1, 0⟩, ⟨0, 0, 0⟩, ⟨0, 0, 0⟩, ⟨0, 0, 0⟩, ⟨0, 0, 0⟩]⟩ := by rfl
  ⟨hrun, (C9_capacity_never_shrinks (cfg false) heap0 ws3 _).2.2.2 _ hrun⟩

/-- C10 (as the code has it): when an `AddHandle` call on a wait set with
`size ≤ capacity` changes the capacity, the new capacity is at least the old one
plus half of it rounded down, that is `3 * old ≤ 2 * new + 1`; the factor 1.5
is reached when the old capacity is even. -/
theorem C10_growth_factor_rounded_down (K : Config) (M : Heap) (s s1 : MagentaWaitManyInfo)
    (handle : mx_handle_t) (signals : mx_signals_t) (di : DescriptorInfoPtr)
    (hsz : s.size ≤ s.capacity) (h : AddHandle K M s handle signals di = .ok s1)
    (hch : s1.capacity ≠ s.capacity) :
    s.capacity + s.capacity / 2 ≤ s1.capacity ∧ 3 * s.capacity ≤ 2 * s1.capacity + 1 ∧
      (s.capacity % 2 = 0 → 3 * s.capacity ≤ 2 * s1.capacity) := by
  simp only [size, capacity] at *
  obtain ⟨g, hg, -, -, rfl⟩ := AddHandle_ok h
  rcases GrowArraysIfNeeded_ok hg with ⟨-, rfl⟩ | ⟨hd, -, -, rfl⟩
  · exact absurd rfl hch
  · show s.capacity_ + s.capacity_ / 2 ≤ s.size_ + 1 + (s.size_ + 1) / 2 ∧
      3 * s.capacity_ ≤ 2 * (s.size_ + 1 + (s.size_ + 1) / 2) + 1 ∧
      (s.capacity_ % 2 = 0 → 3 * s.capacity_ ≤ 2 * (s.size_ + 1 + (s.size_ + 1) / 2))
    omega

theorem C10_growth_factor_rounded_down_witness :
    ws3.size ≤ ws3.capacity ∧
      AddHandle (cfg false) heap0 ws3 10 1 13 =
        .ok ⟨6, 4, [0, 11, 12, 13, 0, 0],
          [⟨3, 5, 0⟩, ⟨8, 1, 0⟩, ⟨9, 1, 2⟩, ⟨10, 1, 0⟩, ⟨0, 0, 0⟩, ⟨0, 0, 0⟩]⟩ ∧
      (6 : Nat) ≠ 4 ∧ 3 * 4 ≤ 2 * 6 + 1 :=
  ⟨by decide, rfl, by decide,
    (C10_growth_factor_rounded_down (cfg false) heap0 ws3 _ 10 1 13 (by decide) rfl
      (by decide)).2.1⟩

set_option maxRecDepth 1000000 in
set_option maxHeartbeats 4000000 in
/-- C10, counterexample: the wait set `ws8` (size 8, capacity 9), which the
constructor with an initial capacity of 4 reaches after eight `AddHandle` calls,
grows to capacity 13 on the next `AddHandle`, and `2 * 13 < 3 * 9`. With an
initial capacity of 32 the same happens at the 243rd call: capacity 243 becomes
364, and `2 * 364 < 3 * 243`. -/
theorem C10_growth_below_one_and_a_half :
    (fromNew (cfg false) heap0 (addMany 8) = .ok ws8 ∧ ws8.size ≤ ws8.capacity ∧
      growthAt (cfg false) heap0 8 = some (9, 13) ∧ ¬ (3 * 9 ≤ 2 * 13)) ∧
    (growthAt { cfg false with kInitialCapacity := 32 } heap0 242 = some (243, 364) ∧
      ¬ (3 * 243 ≤ 2 * 364)) := by
  refine ⟨⟨rfl, by decide, rfl, by decide⟩, ⟨?_, by decide⟩⟩
  decide

end MagentaWaitManyInfo

namespace EventHandlerImplementation

/-! ## Timeouts -/

theorem int64_of_isInt64 {x : Int} (h : IsInt64 x) : int64 x = x := by
  unfold IsInt64 at h
  unfold int64
  omega

/-- C5: without a pending timer `GetTimeout()` returns `kInfinityTimeout`; with
a pending timer whose nearest deadline is `D` it returns `max(0, D - now)`
whenever `D - now` is representable as `int64_t`, and for a fixed `D` the value
does not increase when `now` increases. -/
theorem C5_GetTimeout_value_and_monotone (K : Config) (h : EventHandlerImplementation) :
    (h.timeout_queue_.HasTimeout = false → ∀ now, GetTimeout K h now = K.kInfinityTimeout) ∧
    (h.timeout_queue_.HasTimeout = true → ∀ now,
      IsInt64 (h.timeout_queue_.CurrentTimeout - now) →
      GetTimeout K h now = max 0 (h.timeout_queue_.CurrentTimeout - now)) ∧
    (h.timeout_queue_.HasTimeout = true → ∀ now1 now2,
      IsInt64 (h.timeout_queue_.CurrentTimeout - now1) →
      IsInt64 (h.timeout_queue_.CurrentTimeout - now2) →
      now1 ≤ now2 → GetTimeout K h now2 ≤ GetTimeout K h now1) := by
  have val : h.timeout_queue_.HasTimeout = true → ∀ now,
      IsInt64 (h.timeout_queue_.CurrentTimeout - now) →
      GetTimeout K h now = max 0 (h.timeout_queue_.CurrentTimeout - now) := by
    intro hq now hr
    unfold GetTimeout
    simp only [hq, Bool.not_true, Bool.false_eq_true, if_false, int64_of_isInt64 hr]
    split <;> omega
  refine ⟨?_, val, ?_⟩
  · intro hq now
    unfold GetTimeout
    simp [hq]
  · intro hq now1 now2 h1 h2 hle
    rw [val hq now1 h1, val hq now2 h2]
    omega

theorem C5_GetTimeout_value_and_monotone_witness :
    (handlerWith [⟨100, 7⟩]).timeout_queue_.HasTimeout = true ∧ IsInt64 (100 - 30) ∧
      IsInt64 (100 - 130) ∧ GetTimeout (cfg false) (handlerWith [⟨100, 7⟩]) 30 = 70 ∧
      GetTimeout (cfg false) (handlerWith [⟨100, 7⟩]) 130 ≤
        GetTimeout (cfg false) (handlerWith [⟨100, 7⟩]) 30 :=
  ⟨rfl, by decide, by decide,
    (C5_GetTimeout_value_and_monotone (cfg false) (handlerWith [⟨100, 7⟩])).2.1 rfl 30
      (by decide),
    (C5_GetTimeout_value_and_monotone (cfg false) (handlerWith [⟨100, 7⟩])).2.2 rfl 30 130
      (by decide) (by decide) (by decide)⟩

theorem HandleTimeout_noop (h : EventHandlerImplementation) (now : Int) (w : World)
    (hno : h.timeout_queue_.HasTimeout = false ∨
      (IsInt64 (h.timeout_queue_.CurrentTimeout - now) ∧
        0 < h.timeout_queue_.CurrentTimeout - now)) :
    HandleTimeout h now w = (h, w) := by
  unfold HandleTimeout
  rcases hno with hq | ⟨hr, hpos⟩
  · simp [hq]
  · rw [int64_of_isInt64 hr]
    have : ¬ h.timeout_queue_.CurrentTimeout - now ≤ 0 := by omega
    simp [this]

theorem HandleTimeout_expired (h : EventHandlerImplementation) (now : Int) (w : World)
    (e : TimerEntry) (rest : List TimerEntry) (hq : h.timeout_queue_.entries = e :: rest)
    (hr : IsInt64 (e.deadline - now)) (hle : e.deadline - now ≤ 0) :
    HandleTimeout h now w =
      ({ h with timeout_queue_ := ⟨rest⟩ },
       { w with trace := w.trace ++ [.post_null e.port] }) := by
  unfold HandleTimeout
  simp only [TimeoutQueue.HasTimeout, TimeoutQueue.CurrentTimeout, TimeoutQueue.CurrentPort,
    TimeoutQueue.RemoveCurrent, hq, int64_of_isInt64 hr, hle, List.isEmpty_cons, Bool.not_false,
    if_true, List.tail_cons]

/-- C6: when the timer queue has a timeout and its nearest deadline has passed
(`deadline - now ≤ 0`, the difference being representable as `int64_t`),
`HandleTimeout()` posts one notification, to the port of the nearest entry, and
removes that entry and no other; without a pending timer, or with
`deadline - now > 0`, it posts nothing and changes nothing. In particular, with
timers for `P1` at `t1` and `P2` at `t2 > t1` and a clock in `[t1, t2)`, `P1` is
notified once, the entry of `P2` stays queued, and a second call is a no-op. -/
theorem C6_HandleTimeout_one_expiry (h : EventHandlerImplementation) (now : Int) (w : World) :
    (h.timeout_queue_.HasTimeout = true →
      IsInt64 (h.timeout_queue_.CurrentTimeout - now) →
      h.timeout_queue_.CurrentTimeout - now ≤ 0 →
      HandleTimeout h now w =
          ({ h with timeout_queue_ := h.timeout_queue_.RemoveCurrent },
           { w with trace := w.trace ++ [.post_null h.timeout_queue_.CurrentPort] }) ∧
        ∃ e rest, h.timeout_queue_.entries = e :: rest ∧
          e.deadline = h.timeout_queue_.CurrentTimeout ∧
          e.port = h.timeout_queue_.CurrentPort ∧
          h.timeout_queue_.RemoveCurrent = ⟨rest⟩) ∧
    ((h.timeout_queue_.HasTimeout = false ∨
        (IsInt64 (h.timeout_queue_.CurrentTimeout - now) ∧
          0 < h.timeout_queue_.CurrentTimeout - now)) →
      HandleTimeout h now w = (h, w)) ∧
    (∀ (P1 P2 : Dart_Port) (t1 t2 : Int), P1 ≠ P2 → t1 ≤ now → now < t2 →
      IsInt64 (t1 - now) → IsInt64 (t2 - now) → h.timeout_queue_.entries = [] →
      (∀ q, q = (h.timeout_queue_.UpdateTimeout P1 t1).UpdateTimeout P2 t2 ∨
          q = (h.timeout_queue_.UpdateTimeout P2 t2).UpdateTimeout P1 t1 →
        HandleTimeout { h with timeout_queue_ := q } now w =
          ({ h with timeout_queue_ := ⟨[⟨t2, P2⟩]⟩ },
           { w with trace := w.trace ++ [.post_null P1] }) ∧
        HandleTimeout { h with timeout_queue_ := ⟨[⟨t2, P2⟩]⟩ } now
            { w with trace := w.trace ++ [.post_null P1] } =
          ({ h with timeout_queue_ := ⟨[⟨t2, P2⟩]⟩ },
           { w with trace := w.trace ++ [.post_null P1] }))) := by
  refine ⟨?_, HandleTimeout_noop h now w, ?_⟩
  · intro hq hr hle
    cases hent : h.timeout_queue_.entries with
    | nil => simp [TimeoutQueue.HasTimeout, hent] at hq
    | cons e rest =>
      have hD : h.timeout_queue_.CurrentTimeout = e.deadline := by
        simp [TimeoutQueue.CurrentTimeout, hent]
      have hP : h.timeout_queue_.CurrentPort = e.port := by
        simp [TimeoutQueue.CurrentPort, hent]
      have hR : h.timeout_queue_.RemoveCurrent = ⟨rest⟩ := by
        simp [TimeoutQueue.RemoveCurrent, hent]
      rw [hD] at hr hle
      refine ⟨?_, e, rest, rfl, hD.symm, hP.symm, hR⟩
      rw [hR, hP]
      exact HandleTimeout_expired h now w e rest hent hr hle
  · intro P1 P2 t1 t2 hne h1 h2 hr1 hr2 hempty q hq
    have hne2 : P2 ≠ P1 := fun e => hne e.symm
    have hlt : t1 < t2 := by omega
    have hq2 : q.entries = [⟨t1, P1⟩, ⟨t2, P2⟩] := by
      rcases hq with rfl | rfl
      · have hnlt : ¬ t2 < t1 := by omega
        simp [TimeoutQueue.UpdateTimeout, TimeoutQueue.insertOrdered, hempty, hne, hnlt]
      · simp [TimeoutQueue.UpdateTimeout, TimeoutQueue.insertOrdered, hempty, hne2, hlt]
    constructor
    · exact HandleTimeout_expired { h with timeout_queue_ := q } now w ⟨t1, P1⟩ [⟨t2, P2⟩] hq2
        hr1 (by show t1 - now ≤ 0; omega)
    · apply HandleTimeout_noop
      right
      exact ⟨hr2, by show 0 < t2 - now; omega⟩

theorem C6_HandleTimeout_one_expiry_witness :
    (handlerWith [⟨100, 7⟩, ⟨100, 8⟩, ⟨200, 9⟩]).timeout_queue_.HasTimeout = true ∧
      IsInt64 (100 - 150) ∧ (100 : Int) - 150 ≤ 0 ∧
      HandleTimeout (handlerWith [⟨100, 7⟩, ⟨100, 8⟩, ⟨200, 9⟩]) 150 ⟨⟨[], none⟩, []⟩ =
        (handlerWith [⟨100, 8⟩, ⟨200, 9⟩], ⟨⟨[], none⟩, [.post_null 7]⟩) :=
  ⟨rfl, by decide, by decide,
    ((C6_HandleTimeout_one_expiry (handlerWith [⟨100, 7⟩, ⟨100, 8⟩, ⟨200, 9⟩]) 150
      ⟨⟨[], none⟩, []⟩).1 rfl (by decide) (by decide)).1⟩

/-! ## The drain loop -/

theorem drain_eq (K : Config) (broken : Option Int) :
    ∀ (msgs : List InterruptMessage) (h : EventHandlerImplementation) (tr : List Event),
      (∀ m ∈ msgs, m.id = K.kTimerId ∨ m.id = K.kShutdownId) →
      drain K broken msgs h tr =
        .ok ({ h with
                timeout_queue_ := applyTimerUpdates K h.timeout_queue_ msgs
                shutdown_ := h.shutdown_ || hasShutdown K msgs },
             ⟨⟨[], broken⟩, tr ++ msgs.map Event.read⟩,
             Channel.idleStatus ⟨[], broken⟩) := by
  intro msgs
  induction msgs with
  | nil =>
    intro h tr _
    simp [drain, applyTimerUpdates, hasShutdown, mx_channel_read]
  | cons m rest ih =>
    intro h tr hall
    have hrest : ∀ x ∈ rest, x.id = K.kTimerId ∨ x.id = K.kShutdownId :=
      fun x hx => hall x (List.mem_cons_of_mem _ hx)
    unfold drain
    by_cases ht : m.id = K.kTimerId
    · have hns : m.id ≠ K.kShutdownId := fun e => K.ids_distinct (ht.symm.trans e)
      simp only [ht, if_true]
      rw [ih _ _ hrest]
      simp [applyTimerUpdates, hasShutdown, List.filter_cons, ht, K.ids_distinct]
    · have hs : m.id = K.kShutdownId := (hall m (List.mem_cons_self _ _)).resolve_left ht
      rw [if_neg ht, if_pos hs, ih _ _ hrest]
      have hne : ¬ K.kShutdownId = K.kTimerId := fun e => K.ids_distinct e.symm
      simp [applyTimerUpdates, hasShutdown, List.filter_cons, hs, hne]

/-- C7: with the control channel a FIFO queue whose messages all have kind
`kTimerId` or `kShutdownId`, `HandleInterruptFd()` returns, has read every queued
message once and in queue order, leaves the queue empty, has applied
`UpdateTimeout(dart_port, data)` to the timer queue for each `kTimerId` message
in that order, and leaves the shutdown flag set exactly when it was set before
or a `kShutdownId` message was queued; messages behind a shutdown message are
processed like the others. -/
theorem C7_drain_consumes_queue_in_order (K : Config) (h : EventHandlerImplementation)
    (w : World) (hopen : w.channel.broken = none)
    (hkinds : ∀ m ∈ w.channel.queue, m.id = K.kTimerId ∨ m.id = K.kShutdownId) :
    HandleInterruptFd K h w =
      .ok ({ h with
              timeout_queue_ := applyTimerUpdates K h.timeout_queue_ w.channel.queue
              shutdown_ := h.shutdown_ || hasShutdown K w.channel.queue },
           { channel := ⟨[], none⟩
             trace := w.trace ++ w.channel.queue.map Event.read }) := by
  unfold HandleInterruptFd
  rw [drain_eq K _ _ h w.trace hkinds, hopen]
  simp [Channel.idleStatus]

theorem C7_drain_consumes_queue_in_order_witness :
    (∀ m ∈ [(⟨-1, 7, 100⟩ : InterruptMessage), ⟨-2, 0, 0⟩, ⟨-1, 7, 50⟩],
        m.id = (cfg false).kTimerId ∨ m.id = (cfg false).kShutdownId) ∧
      HandleInterruptFd (cfg false) (handlerWith [⟨60, 8⟩])
          ⟨⟨[⟨-1, 7, 100⟩, ⟨-2, 0, 0⟩, ⟨-1, 7, 50⟩], none⟩, []⟩ =
        .ok ({ handlerWith [⟨50, 7⟩, ⟨60, 8⟩] with shutdown_ := true },
             ⟨⟨[], none⟩, [.read ⟨-1, 7, 100⟩, .read ⟨-2, 0, 0⟩, .read ⟨-1, 7, 50⟩]⟩) :=
  ⟨by decide,
    C7_drain_consumes_queue_in_order (cfg false) (handlerWith [⟨60, 8⟩])
      ⟨⟨[⟨-1, 7, 100⟩, ⟨-2, 0, 0⟩, ⟨-1, 7, 50⟩], none⟩, []⟩ rfl (by decide)⟩

/-! ## The loop of `Poll` -/

theorem drain_ok_kinds (K : Config) (broken : Option Int) :
    ∀ (msgs : List InterruptMessage) (h : EventHandlerImplementation) (tr : List Event)
      (r : EventHandlerImplementation × World × mx_status_t),
      drain K broken msgs h tr = .ok r →
      ∀ m ∈ msgs, m.id = K.kTimerId ∨ m.id = K.kShutdownId := by
  intro msgs
  induction msgs with
  | nil => intro h tr r _ m hm; cases hm
  | cons x rest ih =>
    intro h tr r hr m hm
    unfold drain at hr
    by_cases ht : x.id = K.kTimerId
    · rw [if_pos ht] at hr
      rcases List.mem_cons.1 hm with rfl | hm2
      · exact Or.inl ht
      · exact ih _ _ r hr m hm2
    · rw [if_neg ht] at hr
      by_cases hs : x.id = K.kShutdownId
      · rw [if_pos hs] at hr
        rcases List.mem_cons.1 hm with rfl | hm2
        · exact Or.inr hs
        · exact ih _ _ r hr m hm2
      · rw [if_neg hs] at hr
        cases hr

theorem HandleInterruptFd_ok {K : Config} {h h1 : EventHandlerImplementation} {w w1 : World}
    (hr : HandleInterruptFd K h w = .ok (h1, w1)) :
    h1.shutdown_ = (h.shutdown_ || hasShutdown K w.channel.queue) ∧
      w1.trace = w.trace ++ w.channel.queue.map Event.read := by
  unfold HandleInterruptFd at hr
  cases hd : drain K w.channel.broken w.channel.queue h w.trace with
  | error e => simp [hd] at hr
  | ok r =>
    have hk := drain_ok_kinds K _ _ _ _ r hd
    rw [drain_eq K _ _ h w.trace hk] at hd hr
    simp only [] at hr
    split at hr
    · cases hr
    · simp only [Except.ok.injEq, Prod.mk.injEq] at hr
      obtain ⟨rfl, rfl⟩ := hr
      exact ⟨rfl, rfl⟩

theorem HandleEvents_ok {K : Config} {h h1 : EventHandlerImplementation} {w w1 : World}
    (hr : HandleEvents K h w = .ok (h1, w1)) :
    ∃ reads : List InterruptMessage,
      h1.shutdown_ = (h.shutdown_ || hasShutdown K reads) ∧
      w1.trace = w.trace ++ reads.map Event.read := by
  unfold HandleEvents at hr
  split at hr
  · cases hr
  · split at hr
    · cases hr
    · split at hr
      · cases hr
      · split at hr
        · obtain ⟨a, b⟩ := HandleInterruptFd_ok hr
          exact ⟨_, a, b⟩
        · simp only [Except.ok.injEq, Prod.mk.injEq] at hr
          obtain ⟨rfl, rfl⟩ := hr
          exact ⟨[], by simp [hasShutdown], by simp⟩

theorem HandleTimeout_trace (h : EventHandlerImplementation) (now : Int) (w : World) :
    (HandleTimeout h now w).1.shutdown_ = h.shutdown_ ∧
      ∃ posts : List Dart_Port,
        (HandleTimeout h now w).2.trace = w.trace ++ posts.map Event.post_null := by
  unfold HandleTimeout
  simp only []
  split_ifs
  · exact ⟨rfl, [h.timeout_queue_.CurrentPort], rfl⟩
  · exact ⟨rfl, [], by simp⟩
  · exact ⟨rfl, [], by simp⟩

theorem iteration_ok {K : Config} {t : Tick} {h h1 : EventHandlerImplementation} {w w1 : World}
    (hr : iteration K t h w = .ok (h1, w1)) :
    ∃ (posts : List Dart_Port) (reads : List InterruptMessage),
      h1.shutdown_ = (h.shutdown_ || hasShutdown K reads) ∧
      w1.trace = w.trace ++
        (Event.wait_many h.info_.size (GetTimeout K h t.now_get) ::
          (posts.map Event.post_null ++ reads.map Event.read)) := by
  unfold iteration at hr
  simp only [] at hr
  split at hr
  · cases hr
  · split at hr
    · cases hr
    · obtain ⟨a, posts, b⟩ := HandleTimeout_trace
        { h with info_ := { h.info_ with
            items_ := mx_handle_wait_many h.info_.items_ h.info_.size t.pending } }
        t.now_handle
        { channel := { w.channel with queue := w.channel.queue ++ t.arrived },
          trace := w.trace ++ [.wait_many h.info_.size (GetTimeout K h t.now_get)] }
      obtain ⟨reads, c, d⟩ := HandleEvents_ok hr
      refine ⟨posts, reads, ?_, ?_⟩
      · rw [c, a]
      · rw [d, b]
        simp

theorem suffix_of_cons_split {α : Type} {x y : α} {rest pre post : List α}
    (hne : y ≠ x) (h : x :: rest = pre ++ y :: post) : ∀ ev ∈ post, ev ∈ rest := by
  cases pre with
  | nil =>
    simp only [List.nil_append, List.cons.injEq] at h
    exact absurd h.1.symm hne
  | cons p pre2 =>
    simp only [List.cons_append, List.cons.injEq] at h
    intro ev hev
    rw [h.2]
    simp [hev]

theorem split_in_second {α : Type} {y : α} :
    ∀ (a b pre post : List α), y ∉ a → a ++ b = pre ++ y :: post →
      ∃ pre2, b = pre2 ++ y :: post := by
  intro a
  induction a with
  | nil => intro b pre post _ h; exact ⟨pre, by simpa using h⟩
  | cons x a2 ih =>
    intro b pre post hy h
    cases pre with
    | nil =>
      simp only [List.cons_append, List.nil_append, List.cons.injEq] at h
      exact absurd (by simp [h.1]) hy
    | cons p pre2 =>
      simp only [List.cons_append, List.cons.injEq] at h
      exact ih b pre2 post (fun hm => hy (List.mem_cons_of_mem _ hm)) h.2

theorem pollLoop_returned (K : Config) :
    ∀ (ticks : List Tick) (h h1 : EventHandlerImplementation) (w w1 : World),
      pollLoop K ticks h w = .returned h1 w1 →
      h1.shutdown_ = true ∧
      ∃ mid, w1.trace = w.trace ++ mid ∧ Event.notify_shutdown_done ∉ mid ∧
        (∀ pre post m, mid = pre ++ Event.read m :: post → m.id = K.kShutdownId →
          ∀ c ms, Event.wait_many c ms ∉ post) := by
  intro ticks
  induction ticks with
  | nil =>
    intro h h1 w w1 hr
    unfold pollLoop at hr
    split at hr
    · cases hr
      exact ⟨by assumption, [], by simp, by simp, fun pre post m hm => by simp at hm⟩
    · cases hr
  | cons t ts ih =>
    intro h h1 w w1 hr
    unfold pollLoop at hr
    split at hr
    · cases hr
      exact ⟨by assumption, [], by simp, by simp, fun pre post m hm => by simp at hm⟩
    · rename_i hsd
      cases hit : iteration K t h w with
      | error e => simp [hit] at hr
      | ok r =>
        obtain ⟨h2, w2⟩ := r
        simp only [hit] at hr
        obtain ⟨posts, reads, hs2, htr2⟩ := iteration_ok hit
        obtain ⟨a, mid2, htr, hnot, hsplit⟩ := ih h2 h1 w2 w1 hr
        have hsd2 : h.shutdown_ = false := by simpa using hsd
        rw [hsd2, Bool.false_or] at hs2
        have hrest : ∀ ev ∈ posts.map Event.post_null ++ reads.map Event.read,
            (∀ c ms, ev ≠ Event.wait_many c ms) ∧ ev ≠ Event.notify_shutdown_done ∧
              (∀ m, ev = Event.read m → m ∈ reads) := by
          intro ev hev
          rcases List.mem_append.1 hev with hev | hev
          · obtain ⟨p, -, rfl⟩ := List.mem_map.1 hev
            exact ⟨fun c ms hh => Event.noConfusion hh, fun hh => Event.noConfusion hh,
              fun m hh => Event.noConfusion hh⟩
          · obtain ⟨p, hp, rfl⟩ := List.mem_map.1 hev
            refine ⟨fun c ms hh => Event.noConfusion hh, fun hh => Event.noConfusion hh,
              fun m hh => ?_⟩
            cases hh
            exact hp
        refine ⟨a, Event.wait_many h.info_.size (GetTimeout K h t.now_get) ::
            (posts.map Event.post_null ++ reads.map Event.read) ++ mid2,
          by rw [htr, htr2]; simp, ?_, ?_⟩
        · intro hmem
          rcases List.mem_append.1 hmem with hm | hm
          · rcases List.mem_cons.1 hm with hm | hm
            · cases hm
            · exact (hrest _ hm).2.1 rfl
          · exact hnot hm
        · intro pre post m hm hid c ms hw
          cases hsh : h2.shutdown_ with
          | true =>
            have hmid2 : mid2 = [] := by
              have hret : pollLoop K ts h2 w2 = .returned h2 w2 := by
                cases ts <;> simp [pollLoop, hsh]
              rw [hret] at hr
              cases hr
              simpa using htr
            rw [hmid2, List.append_nil] at hm
            have hpost := suffix_of_cons_split (fun e => by cases e) hm
            exact (hrest _ (hpost _ hw)).1 c ms rfl
          | false =>
            have hnr : Event.read m ∉
                Event.wait_many h.info_.size (GetTimeout K h t.now_get) ::
                  (posts.map Event.post_null ++ reads.map Event.read) := by
              intro hmem
              rcases List.mem_cons.1 hmem with hm2 | hm2
              · cases hm2
              · have hin := (hrest _ hm2).2.2 m rfl
                have : hasShutdown K reads = true := by
                  simp only [hasShutdown, List.any_eq_true, decide_eq_true_eq]
                  exact ⟨m, hin, hid⟩
                rw [this] at hs2
                rw [hs2] at hsh
                cases hsh
            obtain ⟨pre2, hp2⟩ := split_in_second _ _ _ _ hnr hm
            exact hsplit pre2 post m hp2 hid c ms hw

theorem new_ok {K : Config} {M : Heap} {created : mx_status_t × mx_handle_t × mx_handle_t}
    {h : EventHandlerImplementation} (hn : EventHandlerImplementation.new K M created = .ok h) :
    h.shutdown_ = false ∧ h.timeout_queue_ = ⟨[]⟩ ∧ h.info_.size_ = 1 ∧
      h.info_.items_[0]? =
        some ⟨created.2.1, K.MX_SIGNAL_READABLE ||| K.MX_SIGNAL_PEER_CLOSED, 0⟩ ∧
      h.interrupt_handles_ = (created.2.1, created.2.2) := by
  unfold EventHandlerImplementation.new at hn
  cases hi : MagentaWaitManyInfo.new K M with
  | error e => simp [hi] at hn
  | ok info =>
    simp only [hi] at hn
    have hsz : info.size_ = 0 := by
      unfold MagentaWaitManyInfo.new at hi
      split at hi
      · cases hi
      · split at hi
        · cases hi
        · cases hi
          rfl
    split at hn
    · cases hn
    · cases ha : info.AddHandle K M created.2.1
          (K.MX_SIGNAL_READABLE ||| K.MX_SIGNAL_PEER_CLOSED) NULL with
      | error e => simp [ha] at hn
      | ok info1 =>
        simp only [ha, Except.ok.injEq] at hn
        subst hn
        obtain ⟨g, -, -, hb, rfl⟩ := MagentaWaitManyInfo.AddHandle_ok ha
        refine ⟨rfl, rfl, by simp [hsz], ?_, rfl⟩
        rw [hsz] at hb ⊢
        simp only [List.getElem?_set_self hb]

theorem mx_handle_wait_many_getElem? (items : List mx_wait_item_t) (count : Nat)
    (pending : Nat → mx_signals_t) (i : Nat) (it : mx_wait_item_t) (hi : items[i]? = some it)
    (hc : i < count) :
    (mx_handle_wait_many items count pending)[i]? = some { it with pending := pending i } := by
  have hlt : i < items.length := by
    by_contra hcon
    rw [List.getElem?_eq_none (by omega)] at hi
    cases hi
  unfold mx_handle_wait_many
  simp [List.getElem?_range hlt, List.getD_eq_getElem?_getD, hi, hc]

theorem iteration_shutdown_only {K : Config} {h : EventHandlerImplementation} {t : Tick}
    (hq : h.timeout_queue_ = ⟨[]⟩) (hsz : h.info_.size_ = 1)
    (it0 : mx_wait_item_t) (h0 : h.info_.items_[0]? = some it0)
    (harr : t.arrived = []) (hst : t.status = .NO_ERROR ∨ t.status = .ERR_TIMED_OUT)
    (hpc : t.pending 0 &&& K.MX_SIGNAL_PEER_CLOSED = 0)
    (hrd : t.pending 0 &&& K.MX_SIGNAL_READABLE ≠ 0) :
    ∃ h1, h1.shutdown_ = true ∧
      iteration K t h ⟨⟨[⟨K.kShutdownId, 0, 0⟩], none⟩, []⟩ =
        .ok (h1, ⟨⟨[], none⟩,
          [.wait_many 1 K.kInfinityTimeout, .read ⟨K.kShutdownId, 0, 0⟩]⟩) := by
  have hget : GetTimeout K h t.now_get = K.kInfinityTimeout := by
    simp [GetTimeout, hq, TimeoutQueue.HasTimeout]
  have hstat : ¬ (t.status ≠ .NO_ERROR ∧ t.status ≠ .ERR_TIMED_OUT) := by
    rcases hst with e | e <;> simp [e]
  have hkinds : ∀ m ∈ [(⟨K.kShutdownId, 0, 0⟩ : InterruptMessage)],
      m.id = K.kTimerId ∨ m.id = K.kShutdownId := by
    intro m hm
    simp only [List.mem_singleton] at hm
    subst hm
    exact Or.inr rfl
  have hitem := mx_handle_wait_many_getElem? h.info_.items_ h.info_.size t.pending 0 it0 h0
    (by simp [MagentaWaitManyInfo.size, hsz])
  simp only [MagentaWaitManyInfo.size, hsz] at hitem
  have hne : ¬ K.kShutdownId = K.kTimerId := fun e => K.ids_distinct e.symm
  refine ⟨{ info_ := { h.info_ with
              items_ := mx_handle_wait_many h.info_.items_ h.info_.size t.pending },
            interrupt_handles_ := h.interrupt_handles_, shutdown_ := true,
            timeout_queue_ := ⟨[]⟩ }, rfl, ?_⟩
  unfold iteration
  simp only [hget, decide_True, Bool.true_or, Bool.not_true, Bool.and_false,
    Bool.false_eq_true, if_false, hstat, harr, List.append_nil, List.nil_append]
  rw [HandleTimeout_noop _ _ _ (Or.inl (by simp [TimeoutQueue.HasTimeout, hq]))]
  simp only []
  unfold HandleEvents
  simp only [MagentaWaitManyInfo.size, hsz, Nat.sub_self, scanEvents, readAt, hitem, hpc, hrd,
    ne_eq, not_true_eq_false, not_false_eq_true, if_true, if_false]
  unfold HandleInterruptFd
  rw [drain_eq K _ _ _ _ hkinds]
  simp [Channel.idleStatus, hasShutdown, applyTimerUpdates, hne, hq, hitem, hpc, hrd]

/-- C8: every run of `Poll` that returns ends with the shutdown flag set and
with one call of `NotifyShutdownDone`, which is its last action; no call of
`mx_handle_wait_many` follows the read of a `kShutdownId` message. In
particular, from the handler as constructed and a channel holding the one
message sent by `Shutdown()`, a wait that reports the control handle readable
leads to one turn of the loop (one wait, one read), the flag set and one
notification. -/
theorem C8_Poll_notifies_once_after_shutdown (K : Config) :
    (∀ (ticks : List Tick) (h h1 : EventHandlerImplementation) (w w1 : World),
      Poll K ticks h w = .returned h1 w1 →
      h1.shutdown_ = true ∧
      ∃ mid, w1.trace = w.trace ++ mid ++ [Event.notify_shutdown_done] ∧
        Event.notify_shutdown_done ∉ mid ∧
        (∀ pre post m, mid = pre ++ Event.read m :: post → m.id = K.kShutdownId →
          ∀ c ms, Event.wait_many c ms ∉ post)) ∧
    (∀ (M : Heap) (created : mx_status_t × mx_handle_t × mx_handle_t)
        (h : EventHandlerImplementation) (t : Tick) (ts : List Tick),
      EventHandlerImplementation.new K M created = .ok h →
      t.arrived = [] → (t.status = .NO_ERROR ∨ t.status = .ERR_TIMED_OUT) →
      t.pending 0 &&& K.MX_SIGNAL_PEER_CLOSED = 0 → t.pending 0 &&& K.MX_SIGNAL_READABLE ≠ 0 →
      Shutdown K ⟨⟨[], none⟩, []⟩ = .ok ⟨⟨[⟨K.kShutdownId, 0, 0⟩], none⟩, []⟩ ∧
      ∃ h1, h1.shutdown_ = true ∧
        Poll K (t :: ts) h ⟨⟨[⟨K.kShutdownId, 0, 0⟩], none⟩, []⟩ =
          .returned h1 ⟨⟨[], none⟩,
            [.wait_many 1 K.kInfinityTimeout, .read ⟨K.kShutdownId, 0, 0⟩,
              .notify_shutdown_done]⟩) := by
  constructor
  · intro ticks h h1 w w1 hr
    unfold Poll at hr
    cases hl : pollLoop K ticks h w with
    | aborted e => simp [hl] at hr
    | waiting h2 w2 => simp [hl] at hr
    | returned h2 w2 =>
      simp only [hl, PollResult.returned.injEq] at hr
      obtain ⟨rfl, rfl⟩ := hr
      obtain ⟨a, mid, htr, hnot, hsplit⟩ := pollLoop_returned K ticks h h2 w w2 hl
      exact ⟨a, mid, by simp [htr], hnot, hsplit⟩
  · intro M created h t ts hn harr hst hpc hrd
    obtain ⟨n1, n2, n3, n4, -⟩ := new_ok hn
    obtain ⟨h1, hs1, hit⟩ := iteration_shutdown_only n2 n3 _ n4 harr hst hpc hrd
    refine ⟨rfl, h1, hs1, ?_⟩
    have hl : pollLoop K (t :: ts) h ⟨⟨[⟨K.kShutdownId, 0, 0⟩], none⟩, []⟩ =
        .returned h1 ⟨⟨[], none⟩,
          [.wait_many 1 K.kInfinityTimeout, .read ⟨K.kShutdownId, 0, 0⟩]⟩ := by
      unfold pollLoop
      simp only [n1, Bool.false_eq_true, if_false, hit]
      cases ts <;> simp [pollLoop, hs1]
    unfold Poll
    rw [hl]
    rfl

theorem C8_Poll_notifies_once_after_shutdown_witness :
    EventHandlerImplementation.new (cfg true) heap0 (.NO_ERROR, 3, 4) = .ok reactor0 ∧
      Poll (cfg true) [readableTick] reactor0 ⟨⟨[⟨-2, 0, 0⟩], none⟩, []⟩ =
        .returned reactor1
          ⟨⟨[], none⟩, [.wait_many 1 (-1), .read ⟨-2, 0, 0⟩, .notify_shutdown_done]⟩ ∧
      reactor1.shutdown_ = true :=
  have hp : Poll (cfg true) [readableTick] reactor0 ⟨⟨[⟨-2, 0, 0⟩], none⟩, []⟩ =
      .returned reactor1
        ⟨⟨[], none⟩, [.wait_many 1 (-1), .read ⟨-2, 0, 0⟩, .notify_shutdown_done]⟩ := by rfl
  ⟨by rfl, hp, ((C8_Poll_notifies_once_after_shutdown (cfg true)).1 _ _ _ _ _ hp).1⟩

end EventHandlerImplementation

namespace MagentaWaitManyInfo

/-! ## Wait set: capacity and entries after `AddHandle` -/

/-- C11 (as the code has it): after an `AddHandle` that returns on a wait set of
size `n` and capacity `c`, the capacity is `c` whenever `n + 1 < c`, and
otherwise (`n + 1 ≥ c`, so also when `n + 1 = c`) it is `d + d / 2` with
`d = n + 1`. -/
theorem C11_capacity_after_AddHandle (K : Config) (M : Heap) (s s1 : MagentaWaitManyInfo)
    (handle : mx_handle_t) (signals : mx_signals_t) (di : DescriptorInfoPtr)
    (h : AddHandle K M s handle signals di = .ok s1) :
    (s.size + 1 < s.capacity → s1.capacity = s.capacity) ∧
    (s.capacity ≤ s.size + 1 → s1.capacity = (s.size + 1) + (s.size + 1) / 2) := by
  simp only [size, capacity]
  obtain ⟨g, hg, -, -, rfl⟩ := AddHandle_ok h
  rcases GrowArraysIfNeeded_ok hg with ⟨hd, rfl⟩ | ⟨hd, -, -, rfl⟩
  · exact ⟨fun _ => rfl, fun hle => absurd hd (by omega)⟩
  · exact ⟨fun hlt => absurd hd (by omega), fun _ => rfl⟩

theorem C11_capacity_after_AddHandle_witness :
    AddHandle (cfg false) heap0 ws8 9 5 8 =
        .ok ⟨13, 9, [0, 1, 2, 3, 4, 5, 6, 7, 8, 0, 0, 0, 0],
          [⟨1, 5, 0⟩, ⟨2, 5, 0⟩, ⟨3, 5, 0⟩, ⟨4, 5, 0⟩, ⟨5, 5, 0⟩, ⟨6, 5, 0⟩, ⟨7, 5, 0⟩,
            ⟨8, 5, 0⟩, ⟨9, 5, 0⟩, ⟨0, 0, 0⟩, ⟨0, 0, 0⟩, ⟨0, 0, 0⟩, ⟨0, 0, 0⟩]⟩ ∧
      ws8.capacity ≤ ws8.size + 1 ∧ (13 : Nat) = (8 + 1) + (8 + 1) / 2 :=
  ⟨rfl, by decide,
    (C11_capacity_after_AddHandle (cfg false) heap0 ws8 _ 9 5 8 rfl).2 (by decide)⟩

/-- C11, counterexample: `ws3` has size 3 and capacity 4, so `size + 1` does not
exceed the capacity, and `AddHandle` still grows the arrays: the capacity
afterwards is `4 + 4 / 2 = 6`. -/
theorem C11_growth_when_size_plus_one_equals_capacity :
    ws3.size + 1 ≤ ws3.capacity ∧ ws3.capacity = 4 ∧
      AddHandle (cfg false) heap0 ws3 10 1 13 =
        .ok ⟨6, 4, [0, 11, 12, 13, 0, 0],
          [⟨3, 5, 0⟩, ⟨8, 1, 0⟩, ⟨9, 1, 2⟩, ⟨10, 1, 0⟩, ⟨0, 0, 0⟩, ⟨0, 0, 0⟩]⟩ ∧
      (6 : Nat) ≠ 4 := by
  refine ⟨by decide, rfl, rfl, by decide⟩

theorem checkNotInList_absent {items : List mx_wait_item_t} {handle : mx_handle_t} :
    ∀ (n idx : Nat), idx + n ≤ items.length →
      (∀ i it, idx ≤ i → i < idx + n → items[i]? = some it → it.handle ≠ handle) →
      checkNotInList items handle n idx = .ok () := by
  intro n
  induction n with
  | zero => intro idx _ _; rfl
  | succ n ih =>
    intro idx hlen habs
    unfold checkNotInList
    have hlt : idx < items.length := by omega
    rw [readAt_of_lt items idx hlt]
    have hne : (items.get ⟨idx, hlt⟩).handle ≠ handle :=
      habs idx _ (le_refl _) (by omega) (by simp [List.getElem?_eq_getElem hlt])
    simp only [hne, if_false]
    exact ih (idx + 1) (by omega) (fun i it h1 h2 => habs i it (by omega) (by omega))

theorem AddHandle_returns {K : Config} {M : Heap} {s : MagentaWaitManyInfo}
    {handle : mx_handle_t} (signals : mx_signals_t) (di : DescriptorInfoPtr)
    (hwf : s.WellFormed)
    (habs : K.DEBUG = true →
      ∀ i it, i < s.size_ → s.items_[i]? = some it → it.handle ≠ handle)
    (halloc : s.capacity_ ≤ s.size_ + 1 →
      M.descriptor_infos_ok (s.size_ + 1 + (s.size_ + 1) / 2) = true ∧
        M.items_ok (s.size_ + 1 + (s.size_ + 1) / 2) = true) :
    ∃ s1, AddHandle K M s handle signals di = .ok s1 := by
  obtain ⟨hl1, hl2, hl3⟩ := hwf
  have hcheck : (if K.DEBUG then checkNotInList s.items_ handle s.size_ 0 else .ok ()) =
      .ok () := by
    by_cases hdb : K.DEBUG = true
    · rw [if_pos hdb]
      exact checkNotInList_absent s.size_ 0 (by omega)
        (fun i it _ h2 => habs hdb i it (by omega))
    · rw [if_neg hdb]
  unfold AddHandle
  rw [hcheck]
  simp only []
  unfold GrowArraysIfNeeded
  by_cases hd : s.size_ + 1 < s.capacity_
  · have e1 : s.size_ < s.descriptor_infos_.length := by omega
    have e2 : s.size_ < s.items_.length := by omega
    simp [hd, writeAt, e1, e2]
  · obtain ⟨a1, a2⟩ := halloc (by omega)
    have e : s.size_ < s.size_ + 1 + (s.size_ + 1) / 2 := by omega
    simp [hd, Nat.shiftRight_eq_div_pow, a1, a2, writeAt, realloc_length, e]

theorem slot_eq_of_getElem? {s t : MagentaWaitManyInfo} {i j : Nat}
    (h1 : s.items_[i]? = t.items_[j]?)
    (h2 : s.descriptor_infos_[i]? = t.descriptor_infos_[j]?) : s.slot i = t.slot j := by
  simp [slot, h1, h2]

/-- C12: on a well-formed wait set of size `n`, `AddHandle(handle, signals, di)`
with a handle that is not present (and an allocator that grants the request when
the arrays grow) returns a wait set of size `n + 1` whose slots `0 .. n - 1` are
the ones from before, in the same order, and whose slot `n` holds
`(handle, waitfor = signals, pending = 0)` and `di`. -/
theorem C12_AddHandle_appends (K : Config) (M : Heap) (s : MagentaWaitManyInfo)
    (handle : mx_handle_t) (signals : mx_signals_t) (di : DescriptorInfoPtr)
    (hwf : s.WellFormed)
    (habs : ∀ i it, i < s.size → s.items_[i]? = some it → it.handle ≠ handle)
    (halloc : s.capacity ≤ s.size + 1 →
      M.descriptor_infos_ok (s.size + 1 + (s.size + 1) / 2) = true ∧
        M.items_ok (s.size + 1 + (s.size + 1) / 2) = true) :
    ∃ s1, AddHandle K M s handle signals di = .ok s1 ∧ s1.size = s.size + 1 ∧
      (∀ i, i < s.size → s1.slot i = s.slot i) ∧
      s1.slot s.size = some (⟨handle, signals, 0⟩, di) ∧
      s1.live = s.live ++ [(⟨handle, signals, 0⟩, di)] := by
  simp only [size, capacity] at *
  obtain ⟨s1, h1⟩ := AddHandle_returns signals di hwf (fun _ => habs) halloc
  obtain ⟨a1, a2, -, a4, a5, a6⟩ := AddHandle_frame hwf h1
  have hslot : ∀ i, i < s.size_ → s1.slot i = s.slot i :=
    fun i hi => slot_eq_of_getElem? (a4 i hi).1 (a4 i hi).2
  have hnew : s1.slot s.size_ = some (⟨handle, signals, 0⟩, di) := by
    simp [slot, a5, a6]
  refine ⟨s1, h1, a2, hslot, hnew, ?_⟩
  apply List.ext_getElem?
  intro j
  rw [live_getElem?, a2]
  by_cases hj : j < s.size_
  · have hj2 : j < s.live.length := by rw [live_length s hwf]; exact hj
    rw [List.getElem?_append_left hj2, live_getElem?]
    simp [hj, show j < s.size_ + 1 by omega, hslot j hj]
  · have hj2 : s.live.length ≤ j := by rw [live_length s hwf]; omega
    rw [List.getElem?_append_right hj2, live_length s hwf]
    by_cases hje : j = s.size_
    · subst hje
      simp [hnew]
    · have : ¬ j < s.size_ + 1 := by omega
      have h3 : j - s.size_ ≠ 0 := by omega
      obtain ⟨k, hk⟩ := Nat.exists_eq_succ_of_ne_zero h3
      simp [this, hk]

theorem C12_AddHandle_appends_witness :
    ws3.WellFormed ∧
      (∀ i it, i < ws3.size → ws3.items_[i]? = some it → it.handle ≠ 10) ∧
      ∃ s1, AddHandle (cfg true) heap0 ws3 10 1 13 = .ok s1 ∧ s1.size = ws3.size + 1 ∧
        (∀ i, i < ws3.size → s1.slot i = ws3.slot i) ∧
        s1.slot ws3.size = some (⟨10, 1, 0⟩, 13) ∧
        s1.live = ws3.live ++ [(⟨10, 1, 0⟩, 13)] :=
  have habs : ∀ i it, i < ws3.size → ws3.items_[i]? = some it → it.handle ≠ 10 := by
    intro i it hi hit
    have hi3 : i < 3 := hi
    interval_cases i <;> simp [ws3] at hit <;> subst hit <;> decide
  ⟨by decide, habs,
    C12_AddHandle_appends (cfg true) heap0 ws3 10 1 13 (by decide) habs (fun _ => ⟨rfl, rfl⟩)⟩

end MagentaWaitManyInfo

namespace MagentaWaitManyInfo

/-! ## Wait set: the slots after `RemoveHandle` -/

/-- C17: `RemoveHandle` is swap-with-last. On a well-formed wait set of size `n`,
with `i ≥ 1` the first index from 1 on that holds the handle, the call returns a
wait set of size `n - 1` in which slot `i` is the old slot `n - 1` (when
`i ≠ n - 1`), every slot `j < n - 1` other than `i` is unchanged, and slot
`n - 1` is `(MX_HANDLE_INVALID, 0, 0)` with a `NULL` descriptor info. -/
theorem C17_RemoveHandle_swaps_with_last (K : Config) (s : MagentaWaitManyInfo)
    (handle : mx_handle_t) (i : Nat) (hwf : s.WellFormed) (hi1 : 1 ≤ i) (hi2 : i < s.size)
    (hat : ∃ it, s.items_[i]? = some it ∧ it.handle = handle)
    (hfirst : ∀ k it, 1 ≤ k → k < i → s.items_[k]? = some it → it.handle ≠ handle) :
    ∃ s1, RemoveHandle K s handle = .ok s1 ∧ s1.size = s.size - 1 ∧
      (i ≠ s.size - 1 → s1.slot i = s.slot (s.size - 1)) ∧
      (∀ j, j < s.size - 1 → j ≠ i → s1.slot j = s.slot j) ∧
      s1.slot (s.size - 1) = some (⟨K.MX_HANDLE_INVALID, 0, 0⟩, NULL) := by
  simp only [size] at *
  have hrem : RemoveHandle K s handle = .ok (removed K s i) :=
    RemoveHandle_at hwf hi1 hi2 hat (fun k hk1 hk2 it hit => hfirst k it hk1 hk2 hit)
  obtain ⟨hl1, hl2, hl3⟩ := hwf
  have e1 : s.size_ - 1 < s.items_.length := by omega
  have e2 : s.size_ - 1 < s.descriptor_infos_.length := by omega
  have e3 : i < s.items_.length := by omega
  have e4 : i < s.descriptor_infos_.length := by omega
  refine ⟨removed K s i, hrem, rfl, ?_, ?_, ?_⟩
  · intro hne
    have hne2 : s.size_ - 1 ≠ i := fun e => hne e.symm
    simp [slot, removed, List.getElem?_set_ne hne2, List.getElem?_set_self e3,
      List.getElem?_set_self e4, List.getD_eq_getElem?_getD, List.getElem?_eq_getElem e1,
      List.getElem?_eq_getElem e2]
  · intro j hj hji
    obtain ⟨a, b⟩ := removed_getElem? K s i j hji (by omega)
    exact slot_eq_of_getElem? a b
  · have f1 : s.size_ - 1 < (s.items_.set i
        (s.items_.getD (s.size_ - 1) ⟨K.MX_HANDLE_INVALID, 0, 0⟩)).length := by
      rw [List.length_set]; exact e1
    have f2 : s.size_ - 1 < (s.descriptor_infos_.set i
        (s.descriptor_infos_.getD (s.size_ - 1) NULL)).length := by
      rw [List.length_set]; exact e2
    simp only [slot, removed]
    rw [List.getElem?_set_self f1, List.getElem?_set_self f2]

theorem C17_RemoveHandle_swaps_with_last_witness :
    ws3.WellFormed ∧ 1 ≤ 1 ∧ 1 < ws3.size ∧
      ∃ s1, RemoveHandle (cfg false) ws3 8 = .ok s1 ∧ s1.size = ws3.size - 1 ∧
        (1 ≠ ws3.size - 1 → s1.slot 1 = ws3.slot (ws3.size - 1)) ∧
        (∀ j, j < ws3.size - 1 → j ≠ 1 → s1.slot j = ws3.slot j) ∧
        s1.slot (ws3.size - 1) = some (⟨(cfg false).MX_HANDLE_INVALID, 0, 0⟩, NULL) :=
  ⟨by decide, by decide, by decide,
    C17_RemoveHandle_swaps_with_last (cfg false) ws3 8 1 (by decide) (by decide) (by decide)
      ⟨⟨8, 1, 0⟩, rfl, rfl⟩ (fun k it h1 h2 => absurd h1 (by omega))⟩

/-! ## Wait set: every access is in bounds -/

theorem checkNotInList_error {items : List mx_wait_item_t} {handle : mx_handle_t} :
    ∀ (n idx : Nat) (e : Abort), idx + n ≤ items.length →
      checkNotInList items handle n idx = .error e → e = .handle_already_in_list := by
  intro n
  induction n with
  | zero => intro idx e _ h; cases h
  | succ n ih =>
    intro idx e hlen h
    unfold checkNotInList at h
    have hlt : idx < items.length := by omega
    rw [readAt_of_lt items idx hlt] at h
    simp only [] at h
    split at h
    · cases h
      rfl
    · exact ih (idx + 1) e (by omega) h

theorem AddHandle_error {K : Config} {M : Heap} {s : MagentaWaitManyInfo}
    {handle : mx_handle_t} {signals : mx_signals_t} {di : DescriptorInfoPtr} {e : Abort}
    (hwf : s.WellFormed) (h : AddHandle K M s handle signals di = .error e) :
    e = .handle_already_in_list ∨ e = .grow_descriptor_infos ∨ e = .grow_items := by
  obtain ⟨hl1, hl2, hl3⟩ := hwf
  unfold AddHandle at h
  cases hc : (if K.DEBUG then checkNotInList s.items_ handle s.size_ 0 else .ok ()) with
  | error e1 =>
    rw [hc] at h
    simp only [Except.error.injEq] at h
    subst h
    left
    by_cases hdb : K.DEBUG = true
    · rw [if_pos hdb] at hc
      exact checkNotInList_error s.size_ 0 e1 (by omega) hc
    · rw [if_neg hdb] at hc
      cases hc
  | ok u =>
    rw [hc] at h
    simp only [] at h
    unfold GrowArraysIfNeeded at h
    by_cases hd : s.size_ + 1 < s.capacity_
    · have e1 : s.size_ < s.descriptor_infos_.length := by omega
      have e2 : s.size_ < s.items_.length := by omega
      simp [hd, writeAt, e1, e2] at h
    · have e3 : s.size_ < s.size_ + 1 + (s.size_ + 1) / 2 := by omega
      simp only [hd, if_false, Nat.shiftRight_eq_div_pow, pow_one] at h
      cases a1 : M.descriptor_infos_ok (s.size_ + 1 + (s.size_ + 1) / 2)
      · simp [a1] at h
        exact Or.inr (Or.inl h.symm)
      · cases a2 : M.items_ok (s.size_ + 1 + (s.size_ + 1) / 2)
        · simp [a1, a2] at h
          exact Or.inr (Or.inr h.symm)
        · simp [a1, a2, writeAt, realloc_length, e3] at h

theorem RemoveHandle_error (K : Config) (s : MagentaWaitManyInfo) (handle : mx_handle_t)
    {e : Abort} (hsz : 1 ≤ s.size_) (hl1 : s.size_ ≤ s.items_.length)
    (hl2 : s.size_ ≤ s.descriptor_infos_.length) (h : RemoveHandle K s handle = .error e) :
    e = .handle_not_in_list := by
  obtain ⟨j, hj⟩ := findHandle_total s.items_ handle (s.size_ - 1) 1 (by omega)
  have h0 : s.size_ ≠ 0 := by omega
  have hb : s.size_ - 1 < s.descriptor_infos_.length ∧ s.size_ - 1 < s.items_.length := by
    constructor <;> omega
  rw [RemoveHandle_eq] at h
  simp only [h0, if_false, hj, hb, and_self, if_true] at h
  split at h
  · cases h
    rfl
  · cases h

/-- C20: on a well-formed wait set with `1 ≤ size ≤ capacity`, no access of
`AddHandle` or `RemoveHandle` leaves its block. After `GrowArraysIfNeeded(size + 1)`
the index `size` written by `AddHandle` is below the capacity, which is the
length of both blocks; `RemoveHandle` stays in bounds even on blocks of exactly
`size` cells, so it touches indices in `[0, size)` only. Neither call can end in
`out_of_bounds`. -/
theorem C20_accesses_in_bounds (K : Config) (M : Heap) (s : MagentaWaitManyInfo)
    (hwf : s.WellFormed) (hsz : 1 ≤ s.size) :
    (∀ handle signals di, AddHandle K M s handle signals di ≠ .error .out_of_bounds) ∧
    (∀ g, GrowArraysIfNeeded M s (s.size + 1) = .ok g →
      s.size < g.capacity ∧ g.items_.length = g.capacity ∧
        g.descriptor_infos_.length = g.capacity) ∧
    (∀ handle, RemoveHandle K s handle ≠ .error .out_of_bounds) ∧
    (∀ handle, RemoveHandle K
        { s with items_ := s.items_.take s.size,
                 descriptor_infos_ := s.descriptor_infos_.take s.size } handle ≠
      .error .out_of_bounds) := by
  simp only [size, capacity] at *
  have hwf2 := hwf
  obtain ⟨hl1, hl2, hl3⟩ := hwf
  refine ⟨?_, ?_, ?_, ?_⟩
  · intro handle signals di h
    rcases AddHandle_error hwf2 h with e | e | e <;> cases e
  · intro g hg
    rcases GrowArraysIfNeeded_ok hg with ⟨hd, rfl⟩ | ⟨hd, -, -, rfl⟩
    · exact ⟨by omega, hl1, hl2⟩
    · refine ⟨?_, realloc_length _ _ _, realloc_length _ _ _⟩
      show s.size_ < s.size_ + 1 + (s.size_ + 1) / 2
      omega
  · intro handle h
    have := RemoveHandle_error K s handle hsz (by omega) (by omega) h
    cases this
  · intro handle h
    have := RemoveHandle_error K
      { s with items_ := s.items_.take s.size_,
               descriptor_infos_ := s.descriptor_infos_.take s.size_ }
      handle hsz (by simp; omega) (by simp; omega) h
    cases this

theorem C20_accesses_in_bounds_witness :
    ws3.WellFormed ∧ 1 ≤ ws3.size ∧
      AddHandle (cfg true) heap0 ws3 10 1 13 ≠ .error .out_of_bounds ∧
      RemoveHandle (cfg true) ws3 9 ≠ .error .out_of_bounds :=
  ⟨by decide, by decide,
    (C20_accesses_in_bounds (cfg true) heap0 ws3 (by decide) (by decide)).1 10 1 13,
    (C20_accesses_in_bounds (cfg true) heap0 ws3 (by decide) (by decide)).2.2.1 9⟩

end MagentaWaitManyInfo

namespace MagentaWaitManyInfo

/-! ## Wait set: what is reachable from the constructed handler -/

theorem new_wellFormed {K : Config} {M : Heap} {info : MagentaWaitManyInfo}
    (h : MagentaWaitManyInfo.new K M = .ok info) : info.WellFormed ∧ info.size_ = 0 := by
  unfold MagentaWaitManyInfo.new at h
  split at h
  · cases h
  · split at h
    · cases h
    · cases h
      exact ⟨⟨realloc_length _ _ _, realloc_length _ _ _, Nat.zero_le _⟩, rfl⟩

theorem constructed_info {K : Config} {M : Heap}
    {created : mx_status_t × mx_handle_t × mx_handle_t} {h : EventHandlerImplementation}
    (hn : EventHandlerImplementation.new K M created = .ok h) :
    h.info_.WellFormed ∧ h.info_.size_ = 1 ∧
      h.info_.slot 0 =
        some (⟨created.2.1, K.MX_SIGNAL_READABLE ||| K.MX_SIGNAL_PEER_CLOSED, 0⟩, NULL) := by
  unfold EventHandlerImplementation.new at hn
  cases hi : MagentaWaitManyInfo.new K M with
  | error e => simp [hi] at hn
  | ok info =>
    simp only [hi] at hn
    obtain ⟨hwf, hsz⟩ := new_wellFormed hi
    split at hn
    · cases hn
    · cases ha : info.AddHandle K M created.2.1
          (K.MX_SIGNAL_READABLE ||| K.MX_SIGNAL_PEER_CLOSED) NULL with
      | error e => simp [ha] at hn
      | ok info1 =>
        simp only [ha, Except.ok.injEq] at hn
        subst hn
        obtain ⟨a1, a2, -, -, a5, a6⟩ := AddHandle_frame hwf ha
        rw [hsz] at a2 a5 a6
        exact ⟨a1, a2, by simp [slot, a5, a6]⟩

/-- C16: every wait set reached from the constructed handler (initial capacity,
then the control handle added with mask `MX_SIGNAL_READABLE | MX_SIGNAL_PEER_CLOSED`
and a `NULL` descriptor info) by `AddHandle` / `RemoveHandle` calls that return
satisfies `1 ≤ size ≤ capacity`, and its slot 0 holds the control handle with
that mask and a `NULL` descriptor info. -/
theorem C16_reachable_invariant (K : Config) (M : Heap)
    (created : mx_status_t × mx_handle_t × mx_handle_t) (h : EventHandlerImplementation)
    (ops : List Op) (s1 : MagentaWaitManyInfo)
    (hn : EventHandlerImplementation.new K M created = .ok h)
    (hrun : run K M h.info_ ops = .ok s1) :
    1 ≤ s1.size ∧ s1.size ≤ s1.capacity ∧ s1.WellFormed ∧
      s1.slot 0 =
        some (⟨created.2.1, K.MX_SIGNAL_READABLE ||| K.MX_SIGNAL_PEER_CLOSED, 0⟩, NULL) := by
  obtain ⟨hwf, hsz, hslot⟩ := constructed_info hn
  obtain ⟨a1, a2, -, -, a5⟩ := run_invariant ops h.info_ s1 hwf (by omega) hrun
  exact ⟨a2, a1.2.2, a1, a5.trans hslot⟩

theorem C16_reachable_invariant_witness :
    EventHandlerImplementation.new (cfg true) heap0 (.NO_ERROR, 3, 4) = .ok reactor0 ∧
      run (cfg true) heap0 reactor0.info_ [.AddHandle 8 1 11, .AddHandle 9 1 12, .RemoveHandle 8] =
        .ok ⟨4, 2, [0, 12, 0, 0], [⟨3, 5, 0⟩, ⟨9, 1, 0⟩, ⟨0, 0, 0⟩, ⟨0, 0, 0⟩]⟩ ∧
      (1 : Nat) ≤ 2 ∧ (2 : Nat) ≤ 4 :=
  have hn : EventHandlerImplementation.new (cfg true) heap0 (.NO_ERROR, 3, 4) = .ok reactor0 := by
    rfl
  have hrun : run (cfg true) heap0 reactor0.info_
      [.AddHandle 8 1 11, .AddHandle 9 1 12, .RemoveHandle 8] =
      .ok ⟨4, 2, [0, 12, 0, 0], [⟨3, 5, 0⟩, ⟨9, 1, 0⟩, ⟨0, 0, 0⟩, ⟨0, 0, 0⟩]⟩ := by rfl
  ⟨hn, hrun,
    (C16_reachable_invariant (cfg true) heap0 (.NO_ERROR, 3, 4) reactor0 _ _ hn hrun).1,
    (C16_reachable_invariant (cfg true) heap0 (.NO_ERROR, 3, 4) reactor0 _ _ hn hrun).2.1⟩

end MagentaWaitManyInfo

namespace EventHandlerImplementation

/-! ## `HandleEvents`: the scan and the control dispatch -/

theorem scanEvents_quiet (K : Config) (h : EventHandlerImplementation) :
    ∀ (n i : Nat), i + n ≤ h.info_.items_.length →
      (∀ k, i ≤ k → k < i + n → ¬ signalled h k) →
      scanEvents K h n i = .ok () := by
  intro n
  induction n with
  | zero => intro i _ _; rfl
  | succ n ih =>
    intro i hlen hq
    unfold scanEvents
    have hlt : i < h.info_.items_.length := by omega
    rw [readAt_of_lt _ i hlt]
    have hz : ¬ ((h.info_.items_.get ⟨i, hlt⟩).pending &&&
        (h.info_.items_.get ⟨i, hlt⟩).waitfor ≠ 0) := by
      intro hne
      exact hq i (le_refl _) (by omega) ⟨_, by simp [List.getElem?_eq_getElem hlt], hne⟩
    simp only [hz, if_false]
    exact ih (i + 1) (by omega) (fun k h1 h2 => hq k (by omega) (by omega))

theorem scanEvents_first (K : Config) (h : EventHandlerImplementation) :
    ∀ (n i j : Nat) (it : mx_wait_item_t) (di : DescriptorInfoPtr), i ≤ j → j < i + n →
      h.info_.items_[j]? = some it → it.pending &&& it.waitfor ≠ 0 →
      h.info_.descriptor_infos_[j]? = some di →
      (∀ k, i ≤ k → k < j → ¬ signalled h k) →
      scanEvents K h n i =
        .error (if K.DEBUG = true ∧ (di = NULL ∨ it.handle = h.interrupt_handles_.1)
          then .assertion_failed else .unimplemented) := by
  intro n
  induction n with
  | zero => intro i j it di h1 h2; omega
  | succ n ih =>
    intro i j it di h1 h2 hit hsig hdi hq
    unfold scanEvents
    by_cases hij : i = j
    · subst hij
      have hr : readAt h.info_.items_ i = .ok it := readAt_eq_ok.2 hit
      have hrd : readAt h.info_.descriptor_infos_ i = .ok di := readAt_eq_ok.2 hdi
      rw [hr]
      simp only [hsig, ne_eq, not_false_eq_true, if_true, hrd]
      by_cases hdb : K.DEBUG = true
      · by_cases hnull : di = NULL
        · simp [hdb, hnull]
        · by_cases hctl : it.handle = h.interrupt_handles_.1
          · simp [hdb, hnull, hctl]
          · simp [hdb, hnull, hctl]
      · simp [hdb]
    · have hlt : i < h.info_.items_.length := by
        by_contra hc
        rw [List.getElem?_eq_none (by omega)] at hit
        cases hit
      rw [readAt_of_lt _ i hlt]
      have hz : ¬ ((h.info_.items_.get ⟨i, hlt⟩).pending &&&
          (h.info_.items_.get ⟨i, hlt⟩).waitfor ≠ 0) := by
        intro hne
        exact hq i (le_refl _) (by omega) ⟨_, by simp [List.getElem?_eq_getElem hlt], hne⟩
      simp only [hz, if_false]
      exact ih (i + 1) j it di (by omega) (by omega) hit hsig hdi
        (fun k k1 k2 => hq k (by omega) k2)

/-- C13: on a handler whose wait set is well formed with size at least 1 and in
which no entry at an index `1 ≤ i < size` has a watched signal pending: if the
pending mask of slot 0 includes `MX_SIGNAL_PEER_CLOSED`, `HandleEvents()` ends in
the fatal "Unexpected peer closed" whatever the channel holds and whether or not
`MX_SIGNAL_READABLE` is set; otherwise, if it includes `MX_SIGNAL_READABLE`, the
call is `HandleInterruptFd()`; otherwise it returns with the handler and the
channel unchanged. -/
theorem C13_control_dispatch (K : Config) (h : EventHandlerImplementation)
    (hwf : h.info_.WellFormed) (hsz : 1 ≤ h.info_.size)
    (hquiet : ∀ i, 1 ≤ i → i < h.info_.size → ¬ signalled h i) :
    ∃ item0, h.info_.items_[0]? = some item0 ∧
      (item0.pending &&& K.MX_SIGNAL_PEER_CLOSED ≠ 0 →
        ∀ w, HandleEvents K h w = .error .unexpected_peer_closed) ∧
      (item0.pending &&& K.MX_SIGNAL_PEER_CLOSED = 0 →
        item0.pending &&& K.MX_SIGNAL_READABLE ≠ 0 →
        ∀ w, HandleEvents K h w = HandleInterruptFd K h w) ∧
      (item0.pending &&& K.MX_SIGNAL_PEER_CLOSED = 0 →
        item0.pending &&& K.MX_SIGNAL_READABLE = 0 →
        ∀ w, HandleEvents K h w = .ok (h, w)) := by
  simp only [MagentaWaitManyInfo.size] at hsz hquiet
  obtain ⟨hl1, hl2, hl3⟩ := hwf
  have hlt : 0 < h.info_.items_.length := by omega
  have hscan : scanEvents K h (h.info_.size - 1) 1 = .ok () :=
    scanEvents_quiet K h _ 1 (by simp only [MagentaWaitManyInfo.size]; omega)
      (fun k k1 k2 => hquiet k k1 (by simp only [MagentaWaitManyInfo.size] at k2; omega))
  have hread : readAt h.info_.items_ 0 = .ok (h.info_.items_.get ⟨0, hlt⟩) :=
    readAt_of_lt _ 0 hlt
  refine ⟨h.info_.items_.get ⟨0, hlt⟩, by simp [List.getElem?_eq_getElem hlt], ?_, ?_, ?_⟩
  · intro hpc w
    unfold HandleEvents
    rw [hscan, hread]
    simp only [hpc, ne_eq, not_false_eq_true, if_true]
  · intro hpc hrd w
    unfold HandleEvents
    rw [hscan, hread]
    simp only [hpc, hrd, ne_eq, not_true_eq_false, not_false_eq_true, if_true, if_false]
  · intro hpc hrd w
    unfold HandleEvents
    rw [hscan, hread]
    simp only [hpc, hrd, ne_eq, not_true_eq_false, if_false]

theorem C13_control_dispatch_witness :
    reactor1.info_.WellFormed ∧ 1 ≤ reactor1.info_.size ∧
      (∀ i, 1 ≤ i → i < reactor1.info_.size → ¬ signalled reactor1 i) ∧
      ∃ item0, reactor1.info_.items_[0]? = some item0 ∧
        (item0.pending &&& (cfg true).MX_SIGNAL_PEER_CLOSED ≠ 0 →
          ∀ w, HandleEvents (cfg true) reactor1 w = .error .unexpected_peer_closed) ∧
        (item0.pending &&& (cfg true).MX_SIGNAL_PEER_CLOSED = 0 →
          item0.pending &&& (cfg true).MX_SIGNAL_READABLE ≠ 0 →
          ∀ w, HandleEvents (cfg true) reactor1 w = HandleInterruptFd (cfg true) reactor1 w) ∧
        (item0.pending &&& (cfg true).MX_SIGNAL_PEER_CLOSED = 0 →
          item0.pending &&& (cfg true).MX_SIGNAL_READABLE = 0 →
          ∀ w, HandleEvents (cfg true) reactor1 w = .ok (reactor1, w)) :=
  have hq : ∀ i, 1 ≤ i → i < reactor1.info_.size → ¬ signalled reactor1 i := by
    intro i h1 h2
    have h3 : i < 1 := h2
    omega
  ⟨by decide, by decide, hq, C13_control_dispatch (cfg true) reactor1 (by decide) (by decide) hq⟩

end EventHandlerImplementation

namespace EventHandlerImplementation

/-- C18 (as the code has it): `HandleEvents()` has no dispatch hook. At the first
index `i` with `1 ≤ i < size` whose entry has a watched signal pending the call
ends in the fatal `UNIMPLEMENTED()` (in a `DEBUG` build in a failing `ASSERT`
when that entry has a `NULL` descriptor info or the control handle), whatever
the later entries hold; and when no index in `[1, size)` qualifies (slot 0,
entries with only unwatched bits and indices from `size` on do not count) the
scan returns without any effect. -/
theorem C18_scan_aborts_at_first_signalled (K : Config) (h : EventHandlerImplementation)
    (hwf : h.info_.WellFormed) :
    (∀ i it di, 1 ≤ i → i < h.info_.size → h.info_.items_[i]? = some it →
      it.pending &&& it.waitfor ≠ 0 → h.info_.descriptor_infos_[i]? = some di →
      (∀ k, 1 ≤ k → k < i → ¬ signalled h k) →
      ∀ w, HandleEvents K h w =
        .error (if K.DEBUG = true ∧ (di = NULL ∨ it.handle = h.interrupt_handles_.1)
          then .assertion_failed else .unimplemented)) ∧
    ((∀ i, 1 ≤ i → i < h.info_.size → ¬ signalled h i) →
      scanEvents K h (h.info_.size - 1) 1 = .ok ()) := by
  simp only [MagentaWaitManyInfo.size]
  obtain ⟨hl1, hl2, hl3⟩ := hwf
  constructor
  · intro i it di hi1 hi2 hit hsig hdi hq w
    unfold HandleEvents
    rw [scanEvents_first K h (h.info_.size - 1) 1 i it di hi1
      (by simp only [MagentaWaitManyInfo.size]; omega) hit hsig hdi hq]
  · intro hq
    by_cases h0 : h.info_.size_ = 0
    · rw [h0]
      rfl
    · exact scanEvents_quiet K h _ 1 (by omega) (fun k k1 k2 => hq k k1 (by omega))

theorem C18_scan_aborts_at_first_signalled_witness :
    busyHandler.info_.WellFormed ∧ 1 < busyHandler.info_.size ∧
      HandleEvents (cfg true) busyHandler ⟨⟨[], none⟩, []⟩ = .error .unimplemented :=
  ⟨by decide, by decide,
    (C18_scan_aborts_at_first_signalled (cfg true) busyHandler (by decide)).1 1 ⟨8, 1, 1⟩ 11
      (by decide) (by decide) rfl (by decide) rfl (fun k h1 h2 => absurd h1 (by omega))
      ⟨⟨[], none⟩, []⟩⟩

/-- C18, counterexample: in `busyHandler` the entries at index 1 and at index 2
both have a watched signal pending; `HandleEvents()` does not forward them, it
ends in `UNIMPLEMENTED()` at index 1, in a build with and without `DEBUG`. -/
theorem C18_two_signalled_entries_abort :
    signalled busyHandler 1 ∧ signalled busyHandler 2 ∧ busyHandler.info_.size = 3 ∧
      HandleEvents (cfg false) busyHandler ⟨⟨[], none⟩, []⟩ = .error .unimplemented ∧
      HandleEvents (cfg true) busyHandler ⟨⟨[], none⟩, []⟩ = .error .unimplemented :=
  ⟨⟨⟨8, 1, 1⟩, rfl, by decide⟩, ⟨⟨9, 1, 1⟩, rfl, by decide⟩, rfl, rfl, rfl⟩

/-! ## `HandleInterruptFd`: when it returns -/

theorem drain_append (K : Config) (broken : Option Int) :
    ∀ (pre rest : List InterruptMessage) (h : EventHandlerImplementation) (tr : List Event),
      (∀ m ∈ pre, m.id = K.kTimerId ∨ m.id = K.kShutdownId) →
      drain K broken (pre ++ rest) h tr =
        drain K broken rest
          { h with
            timeout_queue_ := applyTimerUpdates K h.timeout_queue_ pre
            shutdown_ := h.shutdown_ || hasShutdown K pre }
          (tr ++ pre.map Event.read) := by
  intro pre
  induction pre with
  | nil =>
    intro rest h tr _
    simp [applyTimerUpdates, hasShutdown]
  | cons m pre2 ih =>
    intro rest h tr hall
    have hrest : ∀ x ∈ pre2, x.id = K.kTimerId ∨ x.id = K.kShutdownId :=
      fun x hx => hall x (List.mem_cons_of_mem _ hx)
    rw [List.cons_append]
    conv_lhs => unfold drain
    by_cases ht : m.id = K.kTimerId
    · rw [if_pos ht, ih _ _ _ hrest]
      simp [applyTimerUpdates, hasShutdown, List.filter_cons, ht, K.ids_distinct]
    · have hs : m.id = K.kShutdownId := (hall m (List.mem_cons_self _ _)).resolve_left ht
      rw [if_neg ht, if_pos hs, ih _ _ _ hrest]
      have hne : ¬ K.kShutdownId = K.kTimerId := fun e => K.ids_distinct e.symm
      simp [applyTimerUpdates, hasShutdown, List.filter_cons, hs, hne]

theorem drain_error (K : Config) (broken : Option Int) :
    ∀ (msgs : List InterruptMessage) (h : EventHandlerImplementation) (tr : List Event)
      (e : Abort), drain K broken msgs h tr = .error e → e = .unimplemented := by
  intro msgs
  induction msgs with
  | nil => intro h tr e he; cases he
  | cons m rest ih =>
    intro h tr e he
    unfold drain at he
    split at he
    · exact ih _ _ e he
    · split at he
      · exact ih _ _ e he
      · cases he
        rfl

end EventHandlerImplementation

namespace EventHandlerImplementation

theorem drain_eq_drainUntil (K : Config) (broken : Option Int) :
    ∀ (msgs : List InterruptMessage) (h : EventHandlerImplementation) (tr : List Event),
      drain K broken msgs h tr =
        match drainUntil K msgs h tr with
        | (h1, tr1, none) =>
          .ok (h1, ⟨⟨[], broken⟩, tr1⟩, (mx_channel_read ⟨[], broken⟩).1)
        | (_, _, some _) => .error .unimplemented := by
  intro msgs
  induction msgs with
  | nil => intro h tr; rfl
  | cons m rest ih =>
    intro h tr
    unfold drain drainUntil
    by_cases ht : m.id = K.kTimerId
    · rw [if_pos ht, if_pos ht]
      exact ih _ _
    · rw [if_neg ht, if_neg ht]
      by_cases hs : m.id = K.kShutdownId
      · rw [if_pos hs, if_pos hs]
        exact ih _ _
      · rw [if_neg hs, if_neg hs]

theorem drainUntil_append (K : Config) :
    ∀ (pre rest : List InterruptMessage) (h : EventHandlerImplementation) (tr : List Event),
      (∀ m ∈ pre, m.id = K.kTimerId ∨ m.id = K.kShutdownId) →
      drainUntil K (pre ++ rest) h tr =
        drainUntil K rest
          { h with
            timeout_queue_ := applyTimerUpdates K h.timeout_queue_ pre
            shutdown_ := h.shutdown_ || hasShutdown K pre }
          (tr ++ pre.map Event.read) := by
  intro pre
  induction pre with
  | nil =>
    intro rest h tr _
    simp [applyTimerUpdates, hasShutdown]
  | cons m pre2 ih =>
    intro rest h tr hall
    have hrest : ∀ x ∈ pre2, x.id = K.kTimerId ∨ x.id = K.kShutdownId :=
      fun x hx => hall x (List.mem_cons_of_mem _ hx)
    rw [List.cons_append]
    conv_lhs => unfold drainUntil
    by_cases ht : m.id = K.kTimerId
    · rw [if_pos ht, ih _ _ _ hrest]
      simp [applyTimerUpdates, hasShutdown, List.filter_cons, ht, K.ids_distinct]
    · have hs : m.id = K.kShutdownId := (hall m (List.mem_cons_self _ _)).resolve_left ht
      rw [if_neg ht, if_pos hs, ih _ _ _ hrest]
      have hne : ¬ K.kShutdownId = K.kTimerId := fun e => K.ids_distinct e.symm
      simp [applyTimerUpdates, hasShutdown, List.filter_cons, hs, hne]

/-- C14: `HandleInterruptFd()` returns exactly when every queued message has kind
`kTimerId` or `kShutdownId` and the read that finds the channel empty has status
`ERR_SHOULD_WAIT`. A message of another kind ends the call in the fatal
`UNIMPLEMENTED()`, and at that moment the messages in front of it have been
applied: the handler carries their timer updates and shutdown flag and they (and
the offending message) have been read, while nothing behind it has been touched.
More generally the call on a queue `pre ++ rest` with `pre` of the two kinds is
the call on `rest` made from the handler with `pre` applied. A final read with a
status other than `ERR_SHOULD_WAIT` ends the call in the fatal "mx_channel_read
failed"; with `ERR_SHOULD_WAIT` that fatal error is not reached. -/
theorem C14_HandleInterruptFd_returns_iff (K : Config) (h : EventHandlerImplementation)
    (w : World) :
    ((∃ r, HandleInterruptFd K h w = .ok r) ↔
      ((∀ m ∈ w.channel.queue, m.id = K.kTimerId ∨ m.id = K.kShutdownId) ∧
        w.channel.idleStatus = .ERR_SHOULD_WAIT)) ∧
    (∀ pre m post, w.channel.queue = pre ++ m :: post →
      (∀ x ∈ pre, x.id = K.kTimerId ∨ x.id = K.kShutdownId) →
      m.id ≠ K.kTimerId → m.id ≠ K.kShutdownId →
      HandleInterruptFd K h w = .error .unimplemented ∧
      drainUntil K w.channel.queue h w.trace =
        ({ h with
            timeout_queue_ := applyTimerUpdates K h.timeout_queue_ pre
            shutdown_ := h.shutdown_ || hasShutdown K pre },
         w.trace ++ pre.map Event.read ++ [Event.read m], some m)) ∧
    (drain K w.channel.broken w.channel.queue h w.trace =
      match drainUntil K w.channel.queue h w.trace with
      | (h1, tr1, none) =>
        .ok (h1, ⟨⟨[], w.channel.broken⟩, tr1⟩, (mx_channel_read ⟨[], w.channel.broken⟩).1)
      | (_, _, some _) => .error .unimplemented) ∧
    (∀ pre rest, w.channel.queue = pre ++ rest →
      (∀ x ∈ pre, x.id = K.kTimerId ∨ x.id = K.kShutdownId) →
      HandleInterruptFd K h w =
        HandleInterruptFd K
          { h with
            timeout_queue_ := applyTimerUpdates K h.timeout_queue_ pre
            shutdown_ := h.shutdown_ || hasShutdown K pre }
          ⟨⟨rest, w.channel.broken⟩, w.trace ++ pre.map Event.read⟩) ∧
    ((∀ m ∈ w.channel.queue, m.id = K.kTimerId ∨ m.id = K.kShutdownId) →
      w.channel.idleStatus ≠ .ERR_SHOULD_WAIT →
      HandleInterruptFd K h w = .error .channel_read_failed) ∧
    (w.channel.idleStatus = .ERR_SHOULD_WAIT →
      HandleInterruptFd K h w ≠ .error .channel_read_failed) := by
  have hidle : Channel.idleStatus ⟨[], w.channel.broken⟩ = w.channel.idleStatus := rfl
  have hvalid : (∀ m ∈ w.channel.queue, m.id = K.kTimerId ∨ m.id = K.kShutdownId) →
      HandleInterruptFd K h w =
        if w.channel.idleStatus ≠ .ERR_SHOULD_WAIT then .error .channel_read_failed
        else .ok ({ h with
                    timeout_queue_ := applyTimerUpdates K h.timeout_queue_ w.channel.queue
                    shutdown_ := h.shutdown_ || hasShutdown K w.channel.queue },
                  ⟨⟨[], w.channel.broken⟩, w.trace ++ w.channel.queue.map Event.read⟩) := by
    intro hk
    unfold HandleInterruptFd
    rw [drain_eq K _ _ h w.trace hk, hidle]
  have hbad : ∀ pre m post, w.channel.queue = pre ++ m :: post →
      (∀ x ∈ pre, x.id = K.kTimerId ∨ x.id = K.kShutdownId) →
      m.id ≠ K.kTimerId → m.id ≠ K.kShutdownId →
      drain K w.channel.broken w.channel.queue h w.trace = .error .unimplemented := by
    intro pre m post hq hpre h1 h2
    rw [hq, drain_append K _ pre (m :: post) h w.trace hpre]
    unfold drain
    rw [if_neg h1, if_neg h2]
  refine ⟨⟨?_, ?_⟩, ?_, drain_eq_drainUntil K _ _ h w.trace, ?_, ?_, ?_⟩
  · rintro ⟨r, hr⟩
    have hk : ∀ m ∈ w.channel.queue, m.id = K.kTimerId ∨ m.id = K.kShutdownId := by
      unfold HandleInterruptFd at hr
      cases hd : drain K w.channel.broken w.channel.queue h w.trace with
      | error e => simp [hd] at hr
      | ok r2 => exact drain_ok_kinds K _ _ _ _ r2 hd
    refine ⟨hk, ?_⟩
    rw [hvalid hk] at hr
    by_contra hne
    rw [if_pos hne] at hr
    cases hr
  · rintro ⟨hk, hst⟩
    rw [hvalid hk]
    exact ⟨_, by rw [if_neg (by simp [hst])]⟩
  · intro pre m post hq hpre h1 h2
    refine ⟨?_, ?_⟩
    · unfold HandleInterruptFd
      rw [hbad pre m post hq hpre h1 h2]
    · rw [hq, drainUntil_append K pre (m :: post) h w.trace hpre]
      unfold drainUntil
      rw [if_neg h1, if_neg h2]
  · intro pre rest hq hpre
    unfold HandleInterruptFd
    rw [hq, drain_append K _ pre rest h w.trace hpre]
  · intro hk hst
    rw [hvalid hk, if_pos hst]
  · intro hst hr
    cases hd : drain K w.channel.broken w.channel.queue h w.trace with
    | error e =>
      unfold HandleInterruptFd at hr
      rw [hd] at hr
      have := drain_error K _ _ _ _ e hd
      subst this
      cases hr
    | ok r2 =>
      have hk := drain_ok_kinds K _ _ _ _ r2 hd
      rw [hvalid hk] at hr
      simp [hst] at hr

theorem C14_HandleInterruptFd_returns_iff_witness :
    (⟨[⟨-1, 7, 100⟩, ⟨5, 0, 0⟩, ⟨-2, 0, 0⟩], none⟩ : Channel).queue =
        [⟨-1, 7, 100⟩] ++ ⟨5, 0, 0⟩ :: [⟨-2, 0, 0⟩] ∧
      HandleInterruptFd (cfg false) (handlerWith [])
        ⟨⟨[⟨-1, 7, 100⟩, ⟨5, 0, 0⟩, ⟨-2, 0, 0⟩], none⟩, []⟩ = .error .unimplemented ∧
      drainUntil (cfg false) [⟨-1, 7, 100⟩, ⟨5, 0, 0⟩, ⟨-2, 0, 0⟩] (handlerWith []) [] =
        (handlerWith [⟨100, 7⟩], [.read ⟨-1, 7, 100⟩, .read ⟨5, 0, 0⟩], some ⟨5, 0, 0⟩) :=
  ⟨rfl,
    ((C14_HandleInterruptFd_returns_iff (cfg false) (handlerWith [])
      ⟨⟨[⟨-1, 7, 100⟩, ⟨5, 0, 0⟩, ⟨-2, 0, 0⟩], none⟩, []⟩).2.1
      [⟨-1, 7, 100⟩] ⟨5, 0, 0⟩ [⟨-2, 0, 0⟩] rfl (by decide) (by decide) (by decide)).1,
    ((C14_HandleInterruptFd_returns_iff (cfg false) (handlerWith [])
      ⟨⟨[⟨-1, 7, 100⟩, ⟨5, 0, 0⟩, ⟨-2, 0, 0⟩], none⟩, []⟩).2.1
      [⟨-1, 7, 100⟩] ⟨5, 0, 0⟩ [⟨-2, 0, 0⟩] rfl (by decide) (by decide) (by decide)).2⟩

/-! ## Timeouts: `GetTimeout` and `HandleTimeout` together -/

theorem GetTimeout_range (K : Config) (h : EventHandlerImplementation) (now : Int) :
    GetTimeout K h now = K.kInfinityTimeout ∨ 0 ≤ GetTimeout K h now := by
  unfold GetTimeout
  by_cases hq : h.timeout_queue_.HasTimeout = true
  · right
    simp only [hq, Bool.not_true, Bool.false_eq_true, if_false]
    split <;> omega
  · left
    simp [hq]

/-- C19: `GetTimeout` and `HandleTimeout` agree on what expired means. For the
same queue and clock reading, `HandleTimeout()` posts a notification and removes
the current timer exactly when the queue has a timeout and `GetTimeout()` is 0;
in every other case, in particular when `GetTimeout()` is positive or there is
no timer (the sentinel), `HandleTimeout()` changes nothing. -/
theorem C19_timeout_agreement (K : Config) (h : EventHandlerImplementation) (now : Int)
    (w : World) :
    (HandleTimeout h now w =
        ({ h with timeout_queue_ := h.timeout_queue_.RemoveCurrent },
         { w with trace := w.trace ++ [.post_null h.timeout_queue_.CurrentPort] }) ↔
      (h.timeout_queue_.HasTimeout = true ∧ GetTimeout K h now = 0)) ∧
    (¬ (h.timeout_queue_.HasTimeout = true ∧ GetTimeout K h now = 0) →
      HandleTimeout h now w = (h, w)) ∧
    (0 < GetTimeout K h now → HandleTimeout h now w = (h, w)) ∧
    (h.timeout_queue_.HasTimeout = false →
      GetTimeout K h now = K.kInfinityTimeout ∧ HandleTimeout h now w = (h, w)) ∧
    (K.kInfinityTimeout ≠ 0 → GetTimeout K h now = K.kInfinityTimeout →
      HandleTimeout h now w = (h, w)) := by
  have hne : (h, w) ≠
      ({ h with timeout_queue_ := h.timeout_queue_.RemoveCurrent },
       { w with trace := w.trace ++ [Event.post_null h.timeout_queue_.CurrentPort] }) := by
    intro e
    have e2 := congrArg (fun p => p.2.trace) e
    simp at e2
  by_cases hq : h.timeout_queue_.HasTimeout = true
  · by_cases hm : int64 (h.timeout_queue_.CurrentTimeout - now) ≤ 0
    · have hg : GetTimeout K h now = 0 := by
        unfold GetTimeout
        simp only [hq, Bool.not_true, Bool.false_eq_true, if_false]
        split <;> omega
      have hh : HandleTimeout h now w =
          ({ h with timeout_queue_ := h.timeout_queue_.RemoveCurrent },
           { w with trace := w.trace ++ [.post_null h.timeout_queue_.CurrentPort] }) := by
        unfold HandleTimeout
        simp only [hq, hm, if_true]
      refine ⟨⟨fun _ => ⟨hq, hg⟩, fun _ => hh⟩, fun hn => absurd ⟨hq, hg⟩ hn,
        fun hpos => absurd hg (by omega), fun hf => absurd hq (by simp [hf]),
        fun h0 he => absurd (hg.symm.trans he) (fun e => h0 e.symm)⟩
    · have hg : GetTimeout K h now = int64 (h.timeout_queue_.CurrentTimeout - now) := by
        unfold GetTimeout
        simp only [hq, Bool.not_true, Bool.false_eq_true, if_false]
        split <;> omega
      have hh : HandleTimeout h now w = (h, w) := by
        unfold HandleTimeout
        simp only [hq, hm, if_true, if_false]
      refine ⟨⟨fun e => absurd (hh.symm.trans e) hne, fun e => absurd e.2 (by omega)⟩,
        fun _ => hh, fun _ => hh, fun hf => absurd hq (by simp [hf]), fun _ _ => hh⟩
  · have hf : h.timeout_queue_.HasTimeout = false := by simpa using hq
    have hh : HandleTimeout h now w = (h, w) := by
      unfold HandleTimeout
      simp [hf]
    have hg : GetTimeout K h now = K.kInfinityTimeout := by
      unfold GetTimeout
      simp [hf]
    refine ⟨⟨fun e => absurd (hh.symm.trans e) hne, fun e => absurd e.1 hq⟩,
      fun _ => hh, fun _ => hh, fun _ => ⟨hg, hh⟩, fun _ _ => hh⟩

theorem C19_timeout_agreement_witness :
    0 < GetTimeout (cfg false) (handlerWith [⟨100, 7⟩]) 30 ∧
      HandleTimeout (handlerWith [⟨100, 7⟩]) 30 ⟨⟨[], none⟩, []⟩ =
        (handlerWith [⟨100, 7⟩], ⟨⟨[], none⟩, []⟩) :=
  ⟨by decide,
    (C19_timeout_agreement (cfg false) (handlerWith [⟨100, 7⟩]) 30 ⟨⟨[], none⟩, []⟩).2.2.1
      (by decide)⟩

end EventHandlerImplementation

namespace EventHandlerImplementation

/-! ## One turn of the loop of `Poll` -/

theorem readAt_error {α : Type} {block : List α} {i : Nat} {e : Abort}
    (h : readAt block i = .error e) : e = .out_of_bounds := by
  unfold readAt at h
  split at h
  · cases h
  · cases h
    rfl

theorem scanEvents_error (K : Config) (h : EventHandlerImplementation) :
    ∀ (n i : Nat) (e : Abort), scanEvents K h n i = .error e → e ≠ .wait_many_failed := by
  intro n
  induction n with
  | zero => intro i e he; cases he
  | succ n ih =>
    intro i e he
    unfold scanEvents at he
    cases hr : readAt h.info_.items_ i with
    | error e1 =>
      rw [hr] at he
      have hee := Except.error.inj he
      subst hee
      rw [readAt_error hr]
      decide
    | ok it =>
      rw [hr] at he
      simp only [] at he
      split at he
      · split at he
        · cases hd : readAt h.info_.descriptor_infos_ i with
          | error e1 =>
            rw [hd] at he
            have hee := Except.error.inj he
            subst hee
            rw [readAt_error hd]
            decide
          | ok di =>
            rw [hd] at he
            simp only [] at he
            split at he
            · cases he; decide
            · split at he
              · cases he; decide
              · cases he; decide
        · cases he; decide
      · exact ih (i + 1) e he

theorem HandleEvents_error {K : Config} {h : EventHandlerImplementation} {w : World}
    {e : Abort} (he : HandleEvents K h w = .error e) : e ≠ .wait_many_failed := by
  unfold HandleEvents at he
  cases hs : scanEvents K h (h.info_.size - 1) 1 with
  | error e1 =>
    rw [hs] at he
    have hee := Except.error.inj he
    subst hee
    exact scanEvents_error K h _ _ e1 hs
  | ok u =>
    rw [hs] at he
    simp only [] at he
    cases hr : readAt h.info_.items_ 0 with
    | error e1 =>
      rw [hr] at he
      have hee := Except.error.inj he
      subst hee
      rw [readAt_error hr]
      decide
    | ok item0 =>
      rw [hr] at he
      simp only [] at he
      split at he
      · cases he; decide
      · split at he
        · unfold HandleInterruptFd at he
          cases hd : drain K w.channel.broken w.channel.queue h w.trace with
          | error e1 =>
            rw [hd] at he
            have hee := Except.error.inj he
            subst hee
            rw [drain_error K _ _ _ _ e1 hd]
            decide
          | ok r =>
            rw [hd] at he
            simp only [] at he
            split at he
            · cases he; decide
            · cases he
        · cases he

theorem HandleTimeout_posts (h : EventHandlerImplementation) (now : Int) (w : World) :
    ∃ posts : List Dart_Port, posts.length ≤ 1 ∧
      (HandleTimeout h now w).2.trace = w.trace ++ posts.map Event.post_null := by
  unfold HandleTimeout
  simp only []
  split_ifs
  · exact ⟨[h.timeout_queue_.CurrentPort], by simp, rfl⟩
  · exact ⟨[], by simp, by simp⟩
  · exact ⟨[], by simp, by simp⟩

/-- C15: one turn of the loop of `Poll` ends in the fatal "mx_handle_wait_many
failed" exactly when the status of the wait is neither `NO_ERROR` nor
`ERR_TIMED_OUT`; for those two statuses the turn is `HandleTimeout()` followed by
`HandleEvents()` on the state the wait left, once each, and a turn that returns
has posted at most one expiry notification. -/
theorem C15_iteration_wait_status (K : Config) (t : Tick) (h : EventHandlerImplementation)
    (w : World) :
    (iteration K t h w = .error .wait_many_failed ↔
      (t.status ≠ .NO_ERROR ∧ t.status ≠ .ERR_TIMED_OUT)) ∧
    ((t.status = .NO_ERROR ∨ t.status = .ERR_TIMED_OUT) →
      ∀ (h1 : EventHandlerImplementation) (w1 : World),
        h1 = { h with info_ := { h.info_ with
                items_ := mx_handle_wait_many h.info_.items_ h.info_.size t.pending } } →
        w1 = { channel := { w.channel with queue := w.channel.queue ++ t.arrived },
               trace := w.trace ++ [.wait_many h.info_.size (GetTimeout K h t.now_get)] } →
        iteration K t h w =
          HandleEvents K (HandleTimeout h1 t.now_handle w1).1
            (HandleTimeout h1 t.now_handle w1).2) ∧
    (∀ h2 w2, iteration K t h w = .ok (h2, w2) →
      ∃ (posts : List Dart_Port) (reads : List InterruptMessage), posts.length ≤ 1 ∧
        w2.trace = w.trace ++
          (Event.wait_many h.info_.size (GetTimeout K h t.now_get) ::
            (posts.map Event.post_null ++ reads.map Event.read))) := by
  have hassert : (K.DEBUG && !(decide (GetTimeout K h t.now_get = K.kInfinityTimeout) ||
      decide (0 ≤ GetTimeout K h t.now_get))) = false := by
    rcases GetTimeout_range K h t.now_get with e | e <;> simp [e]
  have hgood : (t.status = .NO_ERROR ∨ t.status = .ERR_TIMED_OUT) →
      iteration K t h w =
        HandleEvents K
          (HandleTimeout
            { h with info_ := { h.info_ with
                items_ := mx_handle_wait_many h.info_.items_ h.info_.size t.pending } }
            t.now_handle
            { channel := { w.channel with queue := w.channel.queue ++ t.arrived },
              trace := w.trace ++ [.wait_many h.info_.size (GetTimeout K h t.now_get)] }).1
          (HandleTimeout
            { h with info_ := { h.info_ with
                items_ := mx_handle_wait_many h.info_.items_ h.info_.size t.pending } }
            t.now_handle
            { channel := { w.channel with queue := w.channel.queue ++ t.arrived },
              trace := w.trace ++ [.wait_many h.info_.size (GetTimeout K h t.now_get)] }).2 := by
    intro hst
    have hn : ¬ (t.status ≠ .NO_ERROR ∧ t.status ≠ .ERR_TIMED_OUT) := by
      rcases hst with e | e <;> simp [e]
    unfold iteration
    simp only [hassert, Bool.false_eq_true, if_false, hn]
  have hbad : (t.status ≠ .NO_ERROR ∧ t.status ≠ .ERR_TIMED_OUT) →
      iteration K t h w = .error .wait_many_failed := by
    intro hst
    unfold iteration
    simp only [hassert, Bool.false_eq_true, if_false]
    rw [if_pos hst]
  refine ⟨⟨?_, hbad⟩, ?_, ?_⟩
  · intro he
    by_contra hn
    have hst : t.status = .NO_ERROR ∨ t.status = .ERR_TIMED_OUT := by
      by_cases h1 : t.status = .NO_ERROR
      · exact Or.inl h1
      · by_cases h2 : t.status = .ERR_TIMED_OUT
        · exact Or.inr h2
        · exact absurd ⟨h1, h2⟩ hn
    rw [hgood hst] at he
    exact HandleEvents_error he rfl
  · intro hst h1 w1 e1 e2
    subst e1 e2
    exact hgood hst
  · intro h2 w2 hr
    have hst : t.status = .NO_ERROR ∨ t.status = .ERR_TIMED_OUT := by
      by_cases h1 : t.status = .NO_ERROR
      · exact Or.inl h1
      · by_cases h2 : t.status = .ERR_TIMED_OUT
        · exact Or.inr h2
        · rw [hbad ⟨h1, h2⟩] at hr
          cases hr
    rw [hgood hst] at hr
    obtain ⟨posts, hlen, hp⟩ := HandleTimeout_posts
      { h with info_ := { h.info_ with
          items_ := mx_handle_wait_many h.info_.items_ h.info_.size t.pending } }
      t.now_handle
      { channel := { w.channel with queue := w.channel.queue ++ t.arrived },
        trace := w.trace ++ [.wait_many h.info_.size (GetTimeout K h t.now_get)] }
    obtain ⟨reads, -, hrd⟩ := HandleEvents_ok hr
    refine ⟨posts, reads, hlen, ?_⟩
    rw [hrd, hp]
    simp

theorem C15_iteration_wait_status_witness :
    ((⟨0, [], .ERR_OTHER (-5), fun _ => 0, 0⟩ : Tick).status ≠ .NO_ERROR ∧
        (⟨0, [], .ERR_OTHER (-5), fun _ => 0, 0⟩ : Tick).status ≠ .ERR_TIMED_OUT) ∧
      iteration (cfg true) ⟨0, [], .ERR_OTHER (-5), fun _ => 0, 0⟩ reactor0 ⟨⟨[], none⟩, []⟩ =
        .error .wait_many_failed :=
  ⟨⟨by decide, by decide⟩,
    (C15_iteration_wait_status (cfg true) ⟨0, [], .ERR_OTHER (-5), fun _ => 0, 0⟩ reactor0
      ⟨⟨[], none⟩, []⟩).1.2 ⟨by decide, by decide⟩⟩

end EventHandlerImplementation

end EventHandlerFuchsia
